import Mathlib

/-!
# kismet-to-wigle: a shallow embedding of `main.go`

The program reads the `devices` and `packets` tables of a Kismet capture
database and prints one WiGLE CSV row per packet whose source device is a
known access point.  This file embeds the four functions that carry the
logic (`Crypt.String`, `frequencyToChannel`, `accessPoints`, `packets`) and
proves properties of them.

Modelling conventions.

* Go `string` is `String`; a `strings.Builder` is the `String` accumulated so
  far; `fmt.Fprintf` with `%s` verbs is concatenation.
* `Crypt` (`uint64`) is `Nat`.  Only bitwise AND and comparison are applied to
  it, so no operation can overflow; every theorem holds for all naturals and
  in particular for all 64-bit values.
* A finite `float64` value is the rational it denotes.  In
  `frequencyToChannel` the result of every arithmetic operation is rounded to
  the nearest float64, ties to even (`roundFloat64`), and `int(x)` truncates
  toward zero into the 64-bit range.  Infinities, NaN and negative zero are
  not represented.
* A function returning `(T, error)` returns a pair whose second component is
  `Option Error`.
-/

/-! ## Security bitmask -/

/-- The type `Crypt uint64` (main.go:166). -/
abbrev Crypt := Nat

/-- The constant `CryptNone Crypt = 0`, the `iota = 0` line of the block. -/
def CryptNone : Crypt := 0
/-- The constant `CryptUnknown Crypt = 1 << (iota - 1)` at `iota = 1`; the following lines
repeat the expression with `iota` increasing by one per line. -/
def CryptUnknown : Crypt := 1 <<< (1 - 1)
def CryptWEP : Crypt := 1 <<< (2 - 1)
def CryptLayer3 : Crypt := 1 <<< (3 - 1)
def CryptWEP40 : Crypt := 1 <<< (4 - 1)
def CryptWEP104 : Crypt := 1 <<< (5 - 1)
def CryptTKIP : Crypt := 1 <<< (6 - 1)
def CryptWPA : Crypt := 1 <<< (7 - 1)
def CryptPSK : Crypt := 1 <<< (8 - 1)
def CryptAES_OCB : Crypt := 1 <<< (9 - 1)
def CryptAES_CCM : Crypt := 1 <<< (10 - 1)
def CryptWPAMigModde : Crypt := 1 <<< (11 - 1)
def CryptEAP : Crypt := 1 <<< (12 - 1)
def CryptLEAP : Crypt := 1 <<< (13 - 1)
def CryptTTLS : Crypt := 1 <<< (14 - 1)
def CryptTLS : Crypt := 1 <<< (15 - 1)
def CryptPEAP : Crypt := 1 <<< (16 - 1)
def CryptSAE : Crypt := 1 <<< (17 - 1)
def CryptWPAOWE : Crypt := 1 <<< (18 - 1)
-- two blank identifiers take `iota = 19` and `iota = 20`
def CryptISAKMP : Crypt := 1 <<< (21 - 1)
def CryptPPTP : Crypt := 1 <<< (22 - 1)
def CryptFortress : Crypt := 1 <<< (23 - 1)
def CryptKeyGuard : Crypt := 1 <<< (24 - 1)
def CryptUnknownProtected : Crypt := 1 <<< (25 - 1)
def CryptUnknownNonWEP : Crypt := 1 <<< (26 - 1)
def CryptWPS : Crypt := 1 <<< (27 - 1)
def CryptVersionWPA : Crypt := 1 <<< (28 - 1)
def CryptVersionWPA2 : Crypt := 1 <<< (29 - 1)
def CryptVersionWPA3 : Crypt := 1 <<< (30 - 1)

/-- The constant `CryptProtectMask Crypt = 0xFFFF` (main.go:205). -/
def CryptProtectMask : Crypt := 0xFFFF

/-- White space as `unicode.IsSpace` defines it: the ASCII controls
tab, newline, vertical tab, form feed, carriage return, the space, and the
Unicode `White_Space` code points above ASCII. -/
def isSpace (c : Char) : Bool :=
  let n := c.toNat
  (9 ≤ n && n ≤ 13) || n = 32 || n = 0x85 || n = 0xA0 || n = 0x1680 ||
  (0x2000 ≤ n && n ≤ 0x200A) || n = 0x2028 || n = 0x2029 || n = 0x202F ||
  n = 0x205F || n = 0x3000

/-- The library function `strings.TrimSpace`: drop leading and trailing white
space. -/
def TrimSpace (s : String) : String :=
  ⟨((s.data.dropWhile isSpace).reverse.dropWhile isSpace).reverse⟩

/-- The cipher descriptor `version` computed at main.go:220-228. -/
def Crypt.version (c : Crypt) : String :=
  if c &&& CryptTKIP ≠ 0 then
    if c &&& CryptAES_CCM ≠ 0 then "CCMP+TKIP" else "TKIP"
  else if c &&& CryptAES_CCM ≠ 0 then "CCMP"
  else ""

/-- The authentication descriptor `authVersion` computed at main.go:230-238. -/
def Crypt.authVersion (c : Crypt) : String :=
  if c &&& CryptPSK ≠ 0 then "PSK"
  else if c &&& CryptEAP ≠ 0 then "EAP"
  else if c &&& CryptWPAOWE ≠ 0 then "OWE"
  else ""

/-- The contents of the builder `s` when `Crypt.String` reaches its `return`
(main.go:209-249): the three guarded writes in source order. -/
def Crypt.builder (c : Crypt) : String :=
  let s := ""
  let s := if c &&& CryptWPS ≠ 0 then s ++ "[WPS] " else s
  let s := if c &&& CryptProtectMask = CryptWEP then s ++ "[WEP] " else s
  if c &&& CryptWPA ≠ 0 then
    let version := c.version
    let authVersion := c.authVersion
    if c &&& CryptVersionWPA ≠ 0 ∧ c &&& CryptVersionWPA2 ≠ 0 then
      s ++ ("[WPA-" ++ authVersion ++ "-" ++ version ++ "] [WPA2-" ++
        authVersion ++ "-" ++ version ++ "] ")
    else if c &&& CryptVersionWPA2 ≠ 0 then
      s ++ ("[WPA2-" ++ authVersion ++ "-" ++ version ++ "] ")
    else
      s ++ ("[WPA-" ++ authVersion ++ "-" ++ version ++ "] ")
  else s

/-- The text the `Fprintf` calls of main.go:240-248 write, without the space
that ends each of their formats. -/
def Crypt.wpaTokens (c : Crypt) : String :=
  if c &&& CryptVersionWPA ≠ 0 ∧ c &&& CryptVersionWPA2 ≠ 0 then
    "[WPA-" ++ c.authVersion ++ "-" ++ c.version ++ "] [WPA2-" ++
      c.authVersion ++ "-" ++ c.version ++ "]"
  else if c &&& CryptVersionWPA2 ≠ 0 then
    "[WPA2-" ++ c.authVersion ++ "-" ++ c.version ++ "]"
  else
    "[WPA-" ++ c.authVersion ++ "-" ++ c.version ++ "]"

/-- The text the write of main.go:210-212 adds. -/
def Crypt.wpsText (c : Crypt) : String :=
  if c &&& CryptWPS ≠ 0 then "[WPS] " else ""

/-- The method `func (c Crypt) String() string` (main.go:208-252). -/
def Crypt.String (c : Crypt) : String :=
  TrimSpace c.builder ++ "[ESS]"

/-- A non-empty run of tokens: the characters begin with `[` and end
with `]`. -/
def Bracketed (l : List Char) : Prop :=
  ∃ m, l = '[' :: (m ++ [']'])

/-! ## Channel mapper -/

/-- Rounding of a rational to the nearest integer, a tie going to the even
one. -/
def roundHalfEven (k : ℚ) : ℤ :=
  let n := ⌊k⌋
  if k - n < 1 / 2 then n
  else if 1 / 2 < k - n then n + 1
  else if n % 2 = 0 then n else n + 1

/-- The exponent of the unit in the last place of the float64 values around
`q`: 52 below the binary exponent of `q`, which is held at -1022 for the
subnormal range. -/
def ulpExponent (q : ℚ) : ℤ :=
  max (Int.log 2 |q|) (-1022) - 52

/-- The float64 that an arithmetic operation with exact result `q` returns:
the multiple of the unit in the last place nearest to `q`, a tie going to the
even multiple (IEEE 754 round to nearest even, 53-bit significand, gradual
underflow).  Overflow to infinity is not represented; on a finite input no
operation of `frequencyToChannel` overflows. -/
def roundFloat64 (q : ℚ) : ℚ :=
  roundHalfEven (q / 2 ^ ulpExponent q) * 2 ^ ulpExponent q

/-- The finite float64 values: `m * 2^e` with `|m| < 2^53` and
`-1074 ≤ e ≤ 971`. -/
def IsFloat64 (q : ℚ) : Prop :=
  ∃ m e : ℤ, |m| < 2 ^ 53 ∧ -1074 ≤ e ∧ e ≤ 971 ∧ q = m * 2 ^ e

/-- The conversion `int(x)` of a float on a 64-bit platform: the fractional
part is discarded, that is, the value is truncated toward zero.  When the
truncated value does not fit the type, Go leaves the result to the
implementation; `-2^63`, which is what the amd64 instruction gives, stands
for it. -/
def truncToInt (x : ℚ) : ℤ :=
  let t := if 0 ≤ x then ⌊x⌋ else ⌈x⌉
  if -2 ^ 63 ≤ t ∧ t < 2 ^ 63 then t else -2 ^ 63

/-- The function `func frequencyToChannel(f float64) int` (main.go:254-273).
The `switch` takes the first case whose condition holds; the division by
1000, each subtraction and each division are float64 operations. -/
def frequencyToChannel (f : ℚ) : ℤ :=
  let f := roundFloat64 (f / 1000)
  if f ≤ 0 then 0
  else if f = 2484 then 14
  else if f < 2484 then truncToInt (roundFloat64 (roundFloat64 (f - 2407) / 5))
  else if f ≥ 4910 ∧ f ≤ 4980 then truncToInt (roundFloat64 (roundFloat64 (f - 4000) / 5))
  else if f ≤ 45000 then truncToInt (roundFloat64 (roundFloat64 (f - 5000) / 5))
  else if f ≥ 58230 ∧ f ≤ 6480 then
    truncToInt (roundFloat64 (roundFloat64 (f - 56160) / 2160))
  else truncToInt f

/-- The `switch` of `frequencyToChannel` with the case
`f >= 58230 && f <= 6480` deleted and everything else as in the source. -/
def frequencyToChannelWithout60GHz (f : ℚ) : ℤ :=
  let f := roundFloat64 (f / 1000)
  if f ≤ 0 then 0
  else if f = 2484 then 14
  else if f < 2484 then truncToInt (roundFloat64 (roundFloat64 (f - 2407) / 5))
  else if f ≥ 4910 ∧ f ≤ 4980 then truncToInt (roundFloat64 (roundFloat64 (f - 4000) / 5))
  else if f ≤ 45000 then truncToInt (roundFloat64 (roundFloat64 (f - 5000) / 5))
  else truncToInt f

/-- The `switch` of `frequencyToChannel` evaluated in exact arithmetic, with
no rounding: the reference against which the float64 evaluation is
compared. -/
def frequencyToChannelExact (f : ℚ) : ℤ :=
  let f := f / 1000
  if f ≤ 0 then 0
  else if f = 2484 then 14
  else if f < 2484 then truncToInt ((f - 2407) / 5)
  else if f ≥ 4910 ∧ f ≤ 4980 then truncToInt ((f - 4000) / 5)
  else if f ≤ 45000 then truncToInt ((f - 5000) / 5)
  else if f ≥ 58230 ∧ f ≤ 6480 then truncToInt ((f - 56160) / 2160)
  else truncToInt f

/-! ## Input rows and the capability blob -/

/-- The `error` values the program can meet. -/
inductive Error where
  /-- an error reported by `database/sql` (`db.Query` or `rows.Scan`) -/
  | sql (msg : String)
  /-- a `*json.SyntaxError`: the blob is not a JSON text -/
  | malformed (msg : String)
  /-- a `*json.UnmarshalTypeError`: a JSON value of kind `value` met a Go
  target of type `target` -/
  | mismatch (value : String) (target : String)
  deriving DecidableEq

/-- A JSON text after `encoding/json` has checked its grammar: the value
tree, with number literals kept as written and object members in document
order (duplicates included). -/
inductive JSON where
  | null
  | bool (b : Bool)
  | num (lit : String)
  | str (s : String)
  | arr (elems : List JSON)
  | obj (members : List (String × JSON))

/-- The anonymous struct `{ SSId string; CryptSet uint64 }` used for the
last-beaconed record and for the elements of the two SSID maps. -/
structure SSIDEntry where
  SSId : String
  CryptSet : Nat
  deriving DecidableEq

/-- The inner anonymous struct `Device` of `dev` (main.go:119-133). -/
structure Device where
  LastBeaconedSSID : String
  LastBeaconedSSIDRecord : SSIDEntry
  AdvertisedSSIDMap : List SSIDEntry
  RespondedSSIDMap : List SSIDEntry
  deriving DecidableEq

/-- The anonymous struct of `var dev` (main.go:118-134). -/
structure Dev where
  Device : Device
  deriving DecidableEq

/-- The zero value of the entry struct. -/
def SSIDEntry.zero : SSIDEntry := ⟨"", 0⟩

/-- The zero value with which `var dev` starts in every loop iteration. -/
def Dev.zero : Dev := ⟨⟨"", SSIDEntry.zero, [], []⟩⟩

/-- The case folding `encoding/json` applies to an object key before it is
compared with a field name: ASCII letters to upper case, and the two
non-ASCII runes whose simple-fold orbit holds an ASCII letter (U+017F long s,
U+212A Kelvin sign) to that letter.  Every other rune folds to a non-ASCII
rune and is left as it is: it can match no field name of this program. -/
def foldRune (c : Char) : Char :=
  if 97 ≤ c.toNat ∧ c.toNat ≤ 122 then Char.ofNat (c.toNat - 32)
  else if c.toNat = 0x17F then 'S'
  else if c.toNat = 0x212A then 'K'
  else c

/-- The folded form of a key or field name. -/
def foldName (s : String) : List Char :=
  s.data.map foldRune

/-- Whether the object key `key` selects the struct field whose JSON name is
`name`: an exact match, or else a match after folding.  (No two fields of one
struct of this program fold to the same name, so a key selects at most one
field.) -/
def keyMatches (key name : String) : Bool :=
  key = name || foldName key = foldName name

/-- The call `strconv.ParseUint(s, 10, 64)`: a non-empty run of decimal digits whose
value is below `2^64`. -/
def ParseUint (s : String) : Option Nat :=
  if s.data = [] then none
  else if s.data.all Char.isDigit then
    let n := s.data.foldl (fun a d => 10 * a + (d.toNat - 48)) 0
    if n < 2 ^ 64 then some n else none
  else none

/-- Decoding a JSON value into a `string` field holding `cur`: `null` leaves
the field alone, a string is stored, anything else is a type error. -/
def decodeString (cur : String) : JSON → Except Error String
  | .null => .ok cur
  | .str s => .ok s
  | .bool _ => .error (.mismatch "bool" "string")
  | .num l => .error (.mismatch ("number " ++ l) "string")
  | .arr _ => .error (.mismatch "array" "string")
  | .obj _ => .error (.mismatch "object" "string")

/-- Decoding a JSON value into a `uint64` field holding `cur`: `null` leaves
the field alone, a number must pass `ParseUint`, anything else is a type
error. -/
def decodeUint64 (cur : Nat) : JSON → Except Error Nat
  | .null => .ok cur
  | .num l =>
    match ParseUint l with
    | some n => .ok n
    | none => .error (.mismatch ("number " ++ l) "uint64")
  | .bool _ => .error (.mismatch "bool" "uint64")
  | .str _ => .error (.mismatch "string" "uint64")
  | .arr _ => .error (.mismatch "array" "uint64")
  | .obj _ => .error (.mismatch "object" "uint64")

/-- Decoding a JSON value into an entry struct holding `cur`, whose two
fields carry the tags `ssidKey` and `cryptKey`.  The members of an object are
taken in order, each into the field its key selects; members that select no
field are skipped. -/
def decodeEntry (ssidKey cryptKey : String) (cur : SSIDEntry) :
    JSON → Except Error SSIDEntry
  | .null => .ok cur
  | .obj members =>
    members.foldlM (fun e kv =>
      if keyMatches kv.1 ssidKey then
        (decodeString e.SSId kv.2).map fun s => { e with SSId := s }
      else if keyMatches kv.1 cryptKey then
        (decodeUint64 e.CryptSet kv.2).map fun n => { e with CryptSet := n }
      else .ok e) cur
  | .bool _ => .error (.mismatch "bool" "struct")
  | .num l => .error (.mismatch ("number " ++ l) "struct")
  | .str _ => .error (.mismatch "string" "struct")
  | .arr _ => .error (.mismatch "array" "struct")

/-- Decoding the elements of a JSON array, the `i`-th into the `i`-th element
the slice already holds, or into a zero entry when the slice is shorter. -/
def decodeElems (ssidKey cryptKey : String) :
    List SSIDEntry → List JSON → Except Error (List SSIDEntry)
  | _, [] => .ok []
  | cur, j :: js =>
    match decodeEntry ssidKey cryptKey (cur.headD SSIDEntry.zero) j with
    | .error e => .error e
    | .ok x =>
      match decodeElems ssidKey cryptKey cur.tail js with
      | .error e => .error e
      | .ok xs => .ok (x :: xs)

/-- Decoding a JSON value into a slice of entry structs holding `cur`: `null`
empties the slice, an array sets its length to the number of elements. -/
def decodeEntries (ssidKey cryptKey : String) (cur : List SSIDEntry) :
    JSON → Except Error (List SSIDEntry)
  | .null => .ok []
  | .arr elems => decodeElems ssidKey cryptKey cur elems
  | .bool _ => .error (.mismatch "bool" "slice")
  | .num l => .error (.mismatch ("number " ++ l) "slice")
  | .str _ => .error (.mismatch "string" "slice")
  | .obj _ => .error (.mismatch "object" "slice")

/-- Decoding a JSON value into the struct `Device` (main.go:119-133).  The
JSON name of a field is the `json` key of its tag.  The tag of
`LastBeaconedSSID` is written `json"dot11.device.last_beaconed_ssid"`, with no
colon after `json`, so it has no `json` key and the field goes by its Go name
`LastBeaconedSSID`. -/
def decodeDevice (cur : Device) : JSON → Except Error Device
  | .null => .ok cur
  | .obj members =>
    members.foldlM (fun d kv =>
      if keyMatches kv.1 "LastBeaconedSSID" then
        (decodeString d.LastBeaconedSSID kv.2).map fun s =>
          { d with LastBeaconedSSID := s }
      else if keyMatches kv.1 "dot11.device.last_beaconed_ssid_record" then
        (decodeEntry "dot11.advertisedssid.ssid" "dot11.advertisedssid.crypt_set"
          d.LastBeaconedSSIDRecord kv.2).map fun r =>
          { d with LastBeaconedSSIDRecord := r }
      else if keyMatches kv.1 "dot11.device.advertised_ssid_map" then
        (decodeEntries "dot11.advertisedssid.ssid" "dot11.advertisedssid.crypt_set"
          d.AdvertisedSSIDMap kv.2).map fun l =>
          { d with AdvertisedSSIDMap := l }
      else if keyMatches kv.1 "dot11.device.responded_ssid_map" then
        (decodeEntries "dot11.respondedssid.ssid" "dot11.respondedssid.crypt_set"
          d.RespondedSSIDMap kv.2).map fun l =>
          { d with RespondedSSIDMap := l }
      else .ok d) cur
  | .bool _ => .error (.mismatch "bool" "struct")
  | .num l => .error (.mismatch ("number " ++ l) "struct")
  | .str _ => .error (.mismatch "string" "struct")
  | .arr _ => .error (.mismatch "array" "struct")

/-- Decoding a JSON value into the outer struct of `dev`, whose only field
`Device` is tagged `json:"dot11.device"`. -/
def decodeDev (cur : Dev) : JSON → Except Error Dev
  | .null => .ok cur
  | .obj members =>
    members.foldlM (fun d kv =>
      if keyMatches kv.1 "dot11.device" then
        (decodeDevice d.Device kv.2).map fun x => { d with Device := x }
      else .ok d) cur
  | .bool _ => .error (.mismatch "bool" "struct")
  | .num l => .error (.mismatch ("number " ++ l) "struct")
  | .str _ => .error (.mismatch "string" "struct")
  | .arr _ => .error (.mismatch "array" "struct")

/-- The `device` column as `json.Unmarshal` sees it: bytes that are not a
JSON text (with the syntax error they give), or the value tree. -/
abbrev Blob := Except Error JSON

/-- The call `json.Unmarshal(device, &dev)` on the freshly declared `dev`
(main.go:135): the syntax error of the blob, the first type error met while
decoding, or the filled struct. -/
def Unmarshal (device : Blob) : Except Error Dev :=
  match device with
  | .error e => .error e
  | .ok j => decodeDev Dev.zero j

/-! ## Device resolver -/

/-- A row of the `devices` query after `rows.Scan` (main.go:109-113). -/
structure DeviceRow where
  devMac : String
  firstSeen : Int
  avgLat : ℚ
  avgLon : ℚ
  device : Blob

/-- A row of the `packets` query after `rows.Scan` (main.go:50-57). -/
structure PacketRow where
  tsSec : Int
  sourceMac : String
  phyName : String
  lat : ℚ
  lon : ℚ
  signal : Int
  frequency : ℚ
  alt : ℚ

/-- What the program sees of the database: for each of its two queries, the
error of `db.Query` or the rows the query yields, in order, each of them the
values `rows.Scan` stores or the error it returns.  The `where` clauses are
evaluated by the database and the rows here are those that passed them. -/
structure DB where
  deviceQuery : Except Error (List (Except Error DeviceRow))
  packetQuery : Except Error (List (Except Error PacketRow))

/-- The struct `DeviceInfo` (main.go:86-90).  `FirstSeen` is a `time.Time`,
held as the Unix seconds of the instant. -/
structure DeviceInfo where
  SSId : String
  FirstSeen : Int
  Crypto : String
  deriving DecidableEq

/-- The type `map[string]DeviceInfo`: what a lookup `m[k]` finds for each key.
The `nil` map and the empty map both find nothing. -/
abbrev DeviceMap := String → Option DeviceInfo

/-- The map `make(map[string]DeviceInfo)`, and what reading `nil` gives. -/
def DeviceMap.empty : DeviceMap := fun _ => none

/-- The assignment `m[k] = v`. -/
def DeviceMap.insert (m : DeviceMap) (k : String) (v : DeviceInfo) : DeviceMap :=
  fun x => if x = k then some v else m x

/-- The name and bitmask chosen by the `if / else if` chain of
main.go:140-153, starting from `ssid := ""` and `cryptSet := Crypt(0)`. -/
def accessPoints.choose (dev : Dev) : String × Crypt :=
  if dev.Device.LastBeaconedSSID ≠ "" then
    (dev.Device.LastBeaconedSSID, 0)
  else if dev.Device.LastBeaconedSSIDRecord.SSId ≠ "" then
    (dev.Device.LastBeaconedSSIDRecord.SSId, dev.Device.LastBeaconedSSIDRecord.CryptSet)
  else if h : dev.Device.AdvertisedSSIDMap.length > 0 then
    (dev.Device.AdvertisedSSIDMap[0].SSId, dev.Device.AdvertisedSSIDMap[0].CryptSet)
  else if h : dev.Device.RespondedSSIDMap.length > 0 then
    (dev.Device.RespondedSSIDMap[0].SSId, dev.Device.RespondedSSIDMap[0].CryptSet)
  else ("", 0)

/-- The `DeviceInfo` stored at main.go:155-159 for a row whose blob decoded
to `dev`. -/
def accessPoints.info (firstSeen : Int) (dev : Dev) : DeviceInfo :=
  let (ssid, cryptSet) := accessPoints.choose dev
  { SSId := ssid, FirstSeen := firstSeen, Crypto := Crypt.String cryptSet }

/-- The `for rows.Next()` loop of `accessPoints` (main.go:108-161) run on the
remaining rows with the map built so far, and the `return m, nil` after it.
A row that fails to scan or whose blob fails to decode ends the function with
`return nil, err`. -/
def accessPoints.loop (m : DeviceMap) :
    List (Except Error DeviceRow) → DeviceMap × Option Error
  | [] => (m, none)
  | .error err :: _ => (DeviceMap.empty, some err)
  | .ok row :: rest =>
    match Unmarshal row.device with
    | .error err => (DeviceMap.empty, some err)
    | .ok dev =>
      accessPoints.loop (m.insert row.devMac (accessPoints.info row.firstSeen dev)) rest

/-- The function `func accessPoints(db *sql.DB) (map[string]DeviceInfo, error)`
(main.go:92-164). -/
def accessPoints (db : DB) : DeviceMap × Option Error :=
  match db.deviceQuery with
  | .error err => (DeviceMap.empty, some err)
  | .ok rows => accessPoints.loop DeviceMap.empty rows

/-! ## Row builder -/

/-- The decimal digits of `n`, zero-padded on the left to `width`. -/
def padInt (n width : Nat) : String :=
  let d := Nat.repr n
  ⟨List.replicate (width - d.length) '0'⟩ ++ d

/-- The call `fmt.Sprint` on an `int`: decimal digits with a minus sign when
negative. -/
def SprintInt (x : Int) : String :=
  if x < 0 then "-" ++ Nat.repr x.natAbs else Nat.repr x.natAbs

/-- The call `fmt.Sprint` on a `float64`, which prints the shortest decimal that reads
back as the same float, in the `%e` style when the decimal exponent is below
-4 or at least 6 and in the `%f` style otherwise.  For a whole number of
magnitude below `10^6` that is its decimal digits with no point.  The digits
of every other value depend on the binary form of the float and are taken
from the parameter `shortest`. -/
def SprintFloat (shortest : ℚ → String) (x : ℚ) : String :=
  if x.den = 1 ∧ x.num.natAbs < 10 ^ 6 then SprintInt x.num else shortest x

/-- The proleptic Gregorian date `(year, month, day)` of the day that lies
`days` days after 1970-01-01. -/
def civilFromDays (days : Int) : Int × Nat × Nat :=
  let z := days + 719468
  let era := z / 146097
  let doe := (z % 146097).toNat
  let yoe := (doe - doe / 1460 + doe / 36524 - doe / 146096) / 365
  let doy := doe - (365 * yoe + yoe / 4 - yoe / 100)
  let mp := (5 * doy + 2) / 153
  let d := doy - (153 * mp + 2) / 5 + 1
  let m := if mp < 10 then mp + 3 else mp - 9
  let y := (yoe : Int) + era * 400
  (if m ≤ 2 then y + 1 else y, m, d)

/-- The call `t.UTC().Format("2006-01-02 15:04:05")` for the instant
`time.Unix(sec, 0)`: year (at least four digits, with a minus sign before
year 0), month, day, hour, minute and second of the UTC calendar. -/
def formatUTC (sec : Int) : String :=
  let days := sec / 86400
  let rem := (sec % 86400).toNat
  let (y, m, d) := civilFromDays days
  (if y < 0 then "-" else "") ++ padInt y.natAbs 4 ++ "-" ++ padInt m 2 ++ "-" ++
    padInt d 2 ++ " " ++ padInt (rem / 3600) 2 ++ ":" ++ padInt (rem % 3600 / 60) 2 ++
    ":" ++ padInt (rem % 60) 2

/-- The `csv.Writer`: the records handed to `w.Write` so far, oldest first.
Its buffering and the encoding of a record as a line are the library's and
are not represented. -/
abbrev CsvWriter := List (List String)

/-- The record built at main.go:67-79 for a packet row and the `DeviceInfo`
found for its source. -/
def packets.record (shortest : ℚ → String) (row : PacketRow) (dev : DeviceInfo) :
    List String :=
  [ row.sourceMac,
    dev.SSId,
    dev.Crypto,
    formatUTC dev.FirstSeen,
    SprintInt (frequencyToChannel row.frequency),
    SprintInt row.signal,
    SprintFloat shortest row.lat,
    SprintFloat shortest row.lon,
    SprintFloat shortest row.alt,
    "0",
    "WIFI" ]

/-- The `for rows.Next()` loop of `packets` (main.go:49-80) run on the
remaining rows, and the `return nil` after it: a row that fails to scan ends
the function with that error, a row whose source is not a key of the map is
passed over, any other row is written. -/
def packets.loop (shortest : ℚ → String) (accessPoints : DeviceMap) (w : CsvWriter) :
    List (Except Error PacketRow) → CsvWriter × Option Error
  | [] => (w, none)
  | .error err :: _ => (w, some err)
  | .ok row :: rest =>
    match accessPoints row.sourceMac with
    | none => packets.loop shortest accessPoints w rest
    | some dev =>
      packets.loop shortest accessPoints (w ++ [packets.record shortest row dev]) rest

/-- The function
`func packets(db *sql.DB, accessPoints map[string]DeviceInfo, w *csv.Writer) error`
(main.go:35-84), returning the writer as the function leaves it together with
the error. -/
def packets (shortest : ℚ → String) (db : DB) (accessPoints : DeviceMap) (w : CsvWriter) :
    CsvWriter × Option Error :=
  match db.packetQuery with
  | .error err => (w, some err)
  | .ok rows => packets.loop shortest accessPoints w rows

/-! ## Driver -/

/-- What a run leaves behind: the lines printed with `fmt.Println`, the
records handed to the CSV writer, and the error given to `log.Fatal`, which
ends the process with exit status 1; `none` there means that `main`
returned. -/
structure Run where
  printed : List String
  records : CsvWriter
  fatal : Option Error

/-- The function `func main()` (main.go:16-33), given what `sql.Open` returned
(the name `main` alone is reserved for the entry point of a Lean program).
The error of `accessPoints` is kept in `err` while `packets` runs, the error
`packets` returns is dropped, and `err` is tested afterwards. -/
def Program.main (shortest : ℚ → String) (opened : Except Error DB) : Run :=
  match opened with
  | .error err => ⟨[], [], some err⟩
  | .ok db =>
    let printed :=
      ["WigleWifi-1.4,appRelease=1.0,model=cagertronix,release=11.0.0,device=some-pi,display=,board=zero,brand=any",
       "MAC,SSID,AuthMode,FirstSeen,Channel,RSSI,CurrentLatitude,CurrentLongitude,AltitudeMeters,AccuracyMeters,Type"]
    let w : CsvWriter := []
    let (devices, err) := accessPoints db
    let (w, _) := packets shortest db devices w
    match err with
    | some e => ⟨printed, w, some e⟩
    | none => ⟨printed, w, none⟩

/-! ## Reference definitions

The label as the specification words it, to be compared with `Crypt.String`. -/

/-- The cipher descriptor of the specification: `CCMP+TKIP` if the TKIP and
AES-CCM bits are both set, `TKIP` if only TKIP, `CCMP` if only AES-CCM, else
empty. -/
def referenceCipher (c : Crypt) : String :=
  if c &&& CryptTKIP ≠ 0 ∧ c &&& CryptAES_CCM ≠ 0 then "CCMP+TKIP"
  else if c &&& CryptTKIP ≠ 0 ∧ c &&& CryptAES_CCM = 0 then "TKIP"
  else if c &&& CryptAES_CCM ≠ 0 ∧ c &&& CryptTKIP = 0 then "CCMP"
  else ""

/-- The authentication descriptor of the specification: `PSK` if the PSK bit
is set, else `EAP` if the EAP bit is set, else `OWE` if the OWE bit is set,
else empty. -/
def referenceAuth (c : Crypt) : String :=
  if c &&& CryptPSK ≠ 0 then "PSK"
  else if c &&& CryptEAP ≠ 0 then "EAP"
  else if c &&& CryptWPAOWE ≠ 0 then "OWE"
  else ""

/-- The WPA tokens of the specification: both tokens, separated by a space,
when the WPA and WPA2 version bits are both set, the WPA2 token when only the
WPA2 version bit is set, and the WPA token otherwise. -/
def referenceTokens (c : Crypt) : String :=
  if c &&& CryptVersionWPA ≠ 0 ∧ c &&& CryptVersionWPA2 ≠ 0 then
    "[WPA-" ++ referenceAuth c ++ "-" ++ referenceCipher c ++ "] [WPA2-" ++
      referenceAuth c ++ "-" ++ referenceCipher c ++ "]"
  else if c &&& CryptVersionWPA2 ≠ 0 ∧ c &&& CryptVersionWPA = 0 then
    "[WPA2-" ++ referenceAuth c ++ "-" ++ referenceCipher c ++ "]"
  else
    "[WPA-" ++ referenceAuth c ++ "-" ++ referenceCipher c ++ "]"

/-- The reference label for a mask with the `CryptWPA` bit set: the `[WPS] `
prefix exactly when the WPS bit is set, the WPA tokens, and `[ESS]` with no
space before it. -/
def referenceLabel (c : Crypt) : String :=
  (if c &&& CryptWPS ≠ 0 then "[WPS] " else "") ++ referenceTokens c ++ "[ESS]"

/-- The number of days of month `m` of year `y` in the Gregorian calendar. -/
def daysInMonth (y : ℤ) (m : ℕ) : ℕ :=
  if m = 2 then (if y % 4 = 0 ∧ (y % 100 ≠ 0 ∨ y % 400 = 0) then 29 else 28)
  else if m = 4 ∨ m = 6 ∨ m = 9 ∨ m = 11 then 30
  else 31

/-- The number of days from 1 January 1970 to 1 January of year `y`: 365 for
each year in between and one more for each leap year. -/
def daysBeforeYear (y : ℤ) : ℤ :=
  365 * (y - 1970) + ((y - 1) / 4 - (y - 1) / 100 + (y - 1) / 400) - 477

/-- The number of days of year `y` before its month `m`. -/
def daysBeforeMonth (y : ℤ) (m : ℕ) : ℕ :=
  ((List.range (m - 1)).map fun i => daysInMonth y (i + 1)).sum

/-- The Unix time of the civil UTC time `y-m-d h:mi:s`. -/
def unixSeconds (y : ℤ) (m d h mi s : ℕ) : ℤ :=
  (daysBeforeYear y + daysBeforeMonth y m + ((d : ℤ) - 1)) * 86400 + h * 3600 + mi * 60 + s

/-- The decimal numeral of a natural number: its digits in base ten, the most
significant first, and the single digit 0 for zero. -/
def decimalNat (n : ℕ) : List Char :=
  if n = 0 then ['0'] else (Nat.digits 10 n).reverse.map Nat.digitChar

/-- The decimal numeral of an integer: a minus sign before the numeral of the
magnitude of a negative one. -/
def decimalInt (z : ℤ) : List Char :=
  (if z < 0 then ['-'] else []) ++ decimalNat z.natAbs

/-! ## Concrete inputs -/

/-- The mask `CryptVersionWPA|CryptVersionWPA2|CryptPSK|CryptAES_CCM`. -/
def maskVersionsPskCcmp : Crypt :=
  CryptVersionWPA ||| CryptVersionWPA2 ||| CryptPSK ||| CryptAES_CCM

/-- A capability blob holding one advertised network, `Home`, whose
`crypt_set` is the number written `crypt`: under the key `dot11.device`, an
object whose key `dot11.device.advertised_ssid_map` holds a one-element
array. -/
def homeBlob (crypt : String) : JSON :=
  .obj [("dot11.device",
    .obj [("dot11.device.advertised_ssid_map",
      .arr [.obj [("dot11.advertisedssid.ssid", .str "Home"),
                  ("dot11.advertisedssid.crypt_set", .num crypt)]])])]

/-- The database of the end-to-end example: one device row and one packet
row from the same source. -/
def homeDB (crypt : String) : DB where
  deviceQuery := .ok [.ok
    { devMac := "AA:BB:CC:DD:EE:FF", firstSeen := 1700000000, avgLat := 1, avgLon := 2,
      device := .ok (homeBlob crypt) }]
  packetQuery := .ok [.ok
    { tsSec := 1700000000, sourceMac := "AA:BB:CC:DD:EE:FF", phyName := "IEEE802.11",
      lat := 1, lon := 2, signal := -50, frequency := 2412000, alt := 10 }]

/-- A capability blob that carries a last-beaconed name, `Beacon`, under the
key `nameKey` inside `dot11.device`, and an advertised list whose first
entry is named `Home`. -/
def beaconBlob (nameKey : String) : JSON :=
  .obj [("dot11.device",
    .obj [(nameKey, .str "Beacon"),
          ("dot11.device.advertised_ssid_map",
            .arr [.obj [("dot11.advertisedssid.ssid", .str "Home"),
                        ("dot11.advertisedssid.crypt_set", .num "0")]])])]

/-- A database whose one device row carries `beaconBlob nameKey`. -/
def beaconDB (nameKey : String) : DB where
  deviceQuery := .ok [.ok
    { devMac := "AA:BB:CC:DD:EE:FF", firstSeen := 1700000000, avgLat := 1, avgLon := 2,
      device := .ok (beaconBlob nameKey) }]
  packetQuery := .ok []

/-- A decoded record with no last-beaconed name, an advertised list whose
first entry has an empty name and the bitmask `CryptWEP`, and a responded
list whose first entry is named `Guest`. -/
def hiddenDev : Dev :=
  ⟨⟨"", SSIDEntry.zero, [⟨"", CryptWEP⟩], [⟨"Guest", CryptWPA ||| CryptPSK⟩]⟩⟩

/-- A capability blob that decodes to `hiddenDev`: an advertised list whose
one entry has the empty name and `crypt_set` 2, and a responded list whose
one entry is named `Guest` with `crypt_set` 192. -/
def hiddenBlob : JSON :=
  .obj [("dot11.device",
    .obj [("dot11.device.advertised_ssid_map",
            .arr [.obj [("dot11.advertisedssid.ssid", .str ""),
                        ("dot11.advertisedssid.crypt_set", .num "2")]]),
          ("dot11.device.responded_ssid_map",
            .arr [.obj [("dot11.respondedssid.ssid", .str "Guest"),
                        ("dot11.respondedssid.crypt_set", .num "192")]])])]

/-- Three device rows, the first and the third with the same identifier. -/
def dupRows : List DeviceRow :=
  [ { devMac := "AA:BB:CC:DD:EE:FF", firstSeen := 1, avgLat := 1, avgLon := 2,
      device := .ok (homeBlob "0") },
    { devMac := "11:22:33:44:55:66", firstSeen := 2, avgLat := 1, avgLon := 2,
      device := .ok (beaconBlob "LastBeaconedSSID") },
    { devMac := "AA:BB:CC:DD:EE:FF", firstSeen := 3, avgLat := 1, avgLon := 2,
      device := .ok hiddenBlob } ]

/-- A device row whose blob is not a JSON text. -/
def brokenRow : DeviceRow :=
  { devMac := "11:22:33:44:55:66", firstSeen := 2, avgLat := 1, avgLon := 2,
    device := .error (.malformed "unexpected end of JSON input") }

/-- A device row whose blob is a JSON text, the empty array, that does not
fit the struct. -/
def mistypedRow : DeviceRow :=
  { devMac := "22:33:44:55:66:77", firstSeen := 3, avgLat := 1, avgLon := 2,
    device := .ok (.arr []) }

/-- A database whose device query yields the row of the end-to-end example
and whose packet query fails. -/
def packetQueryFailsDB : DB where
  deviceQuery := (homeDB "268436160").deviceQuery
  packetQuery := .error (.sql "no such table: packets")

/-- A database whose device query yields the row of the end-to-end example
and whose packet query yields one good row and then a row that fails to
scan. -/
def packetScanFailsDB : DB where
  deviceQuery := (homeDB "268436160").deviceQuery
  packetQuery := .ok [.ok
    { tsSec := 1700000000, sourceMac := "AA:BB:CC:DD:EE:FF", phyName := "IEEE802.11",
      lat := 1, lon := 2, signal := -50, frequency := 2412000, alt := 10 },
    .error (.sql "converting NULL to float64 is unsupported")]

/-! ## Lemmas on trimming and on the builder -/

theorem TrimSpace_data (s : String) :
    (TrimSpace s).data =
      ((s.data.dropWhile isSpace).reverse.dropWhile isSpace).reverse := rfl

theorem Bracketed.trim_space {l : List Char} (h : Bracketed l) :
    (((l ++ [' ']).dropWhile isSpace).reverse.dropWhile isSpace).reverse = l := by
  obtain ⟨m, rfl⟩ := h
  have h1 : isSpace '[' = false := by decide
  have h2 : isSpace ']' = false := by decide
  have h3 : isSpace ' ' = true := by decide
  simp [List.dropWhile, h1, h2, h3]

theorem Bracketed.trim {l : List Char} (h : Bracketed l) :
    ((l.dropWhile isSpace).reverse.dropWhile isSpace).reverse = l := by
  obtain ⟨m, rfl⟩ := h
  have h1 : isSpace '[' = false := by decide
  have h2 : isSpace ']' = false := by decide
  simp [List.dropWhile, h1, h2]

theorem Bracketed.append {l₁ l₂ : List Char} (h₁ : Bracketed l₁) (h₂ : Bracketed l₂) :
    Bracketed (l₁ ++ l₂) := by
  obtain ⟨m₁, rfl⟩ := h₁
  obtain ⟨m₂, rfl⟩ := h₂
  exact ⟨m₁ ++ [']'] ++ '[' :: m₂, by simp⟩

theorem Bracketed.append_space {l₁ l₂ : List Char} (h₁ : Bracketed l₁)
    (h₂ : Bracketed l₂) : Bracketed (l₁ ++ ' ' :: l₂) := by
  obtain ⟨m₁, rfl⟩ := h₁
  obtain ⟨m₂, rfl⟩ := h₂
  exact ⟨m₁ ++ [']', ' '] ++ '[' :: m₂, by simp⟩

theorem Bracketed.getLast {l : List Char} (h : Bracketed l) : l.getLast? = some ']' := by
  obtain ⟨m, rfl⟩ := h
  simp [List.getLast?_cons]

theorem Bracketed.head {l : List Char} (h : Bracketed l) : l.head? = some '[' := by
  obtain ⟨m, rfl⟩ := h
  rfl

theorem Bracketed.token (p : String) (m : List Char) (h : p.data = '[' :: m)
    (a v : String) : Bracketed (p ++ a ++ "-" ++ v ++ "]").data := by
  refine ⟨m ++ a.data ++ "-".data ++ v.data, ?_⟩
  simp [String.data_append, h]

/-- Trimming a run of tokens followed by one space gives the run. -/
theorem TrimSpace_append_space (s : String) (h : Bracketed s.data) :
    TrimSpace (s ++ " ") = s := by
  apply String.ext
  rw [TrimSpace_data, String.data_append]
  exact h.trim_space

/-- Trimming a run of tokens changes nothing. -/
theorem TrimSpace_bracketed (s : String) (h : Bracketed s.data) : TrimSpace s = s := by
  apply String.ext
  rw [TrimSpace_data]
  exact h.trim

theorem wpaTokens_bracketed (c : Crypt) : Bracketed c.wpaTokens.data := by
  have h1 := Bracketed.token "[WPA-" "WPA-".data rfl c.authVersion c.version
  have h2 := Bracketed.token "[WPA2-" "WPA2-".data rfl c.authVersion c.version
  unfold Crypt.wpaTokens
  split_ifs
  · have h := h1.append_space h2
    have e : ("[WPA-" ++ c.authVersion ++ "-" ++ c.version ++ "] [WPA2-" ++
        c.authVersion ++ "-" ++ c.version ++ "]").data =
        ("[WPA-" ++ c.authVersion ++ "-" ++ c.version ++ "]").data ++
          ' ' :: ("[WPA2-" ++ c.authVersion ++ "-" ++ c.version ++ "]").data := by
      simp [String.data_append]
    rw [e]
    exact h
  · exact h2
  · exact h1

/-- The low sixteen bits hold `CryptWPA`, so they cannot equal `CryptWEP` while
that bit is set. -/
theorem land_mask_wpa (c : Crypt) (h : c &&& CryptProtectMask = CryptWEP) :
    c &&& CryptWPA = 0 := by
  have h1 : c &&& CryptWPA = (c &&& CryptProtectMask) &&& CryptWPA := by
    rw [Nat.land_assoc]
    have : CryptProtectMask &&& CryptWPA = CryptWPA := by decide
    rw [this]
  rw [h1, h]
  decide

/-- The builder when the `CryptWPA` bit is set. -/
theorem builder_of_wpa (c : Crypt) (h : c &&& CryptWPA ≠ 0) :
    c.builder = (c.wpsText ++ c.wpaTokens) ++ " " := by
  have hwep : ¬ c &&& CryptProtectMask = CryptWEP := fun hw => h (land_mask_wpa c hw)
  unfold Crypt.builder Crypt.wpsText Crypt.wpaTokens
  simp only [hwep, h, if_false, if_true, ne_eq, not_false_eq_true]
  apply String.ext
  split_ifs <;> simp [String.data_append]

/-- The builder when the `CryptWPA` bit is clear. -/
theorem builder_of_not_wpa (c : Crypt) (h : c &&& CryptWPA = 0) :
    c.builder = c.wpsText ++ if c &&& CryptProtectMask = CryptWEP then "[WEP] " else "" := by
  unfold Crypt.builder Crypt.wpsText
  simp only [h, ne_eq, not_true_eq_false, if_false]
  apply String.ext
  split_ifs <;> simp [String.data_append]

theorem wpsText_append_bracketed (c : Crypt) (s : String) (h : Bracketed s.data) :
    Bracketed (c.wpsText ++ s).data := by
  unfold Crypt.wpsText
  split_ifs
  · have hw : Bracketed "[WPS]".data := ⟨"WPS".data, rfl⟩
    have e : ("[WPS] " ++ s).data = "[WPS]".data ++ ' ' :: s.data := by
      simp [String.data_append]
    rw [e]
    exact hw.append_space h
  · simpa [String.data_append] using h

/-- The label when the `CryptWPA` bit is set. -/
theorem cryptString_of_wpa (c : Crypt) (h : c &&& CryptWPA ≠ 0) :
    Crypt.String c = c.wpsText ++ c.wpaTokens ++ "[ESS]" := by
  unfold Crypt.String
  rw [builder_of_wpa c h,
    TrimSpace_append_space _ (wpsText_append_bracketed c _ (wpaTokens_bracketed c))]

/-- The four labels possible when the `CryptWPA` bit is clear. -/
theorem cryptString_of_not_wpa (c : Crypt) (h : c &&& CryptWPA = 0) :
    Crypt.String c =
      if c &&& CryptWPS ≠ 0 then
        if c &&& CryptProtectMask = CryptWEP then "[WPS] [WEP][ESS]" else "[WPS][ESS]"
      else
        if c &&& CryptProtectMask = CryptWEP then "[WEP][ESS]" else "[ESS]" := by
  unfold Crypt.String
  rw [builder_of_not_wpa c h]
  unfold Crypt.wpsText
  split_ifs <;> decide

/-! ## The security label -/

theorem version_eq_referenceCipher (c : Crypt) : c.version = referenceCipher c := by
  unfold Crypt.version referenceCipher
  split_ifs <;> simp_all

theorem authVersion_eq_referenceAuth (c : Crypt) : c.authVersion = referenceAuth c := rfl

theorem wpaTokens_eq_referenceTokens (c : Crypt) : c.wpaTokens = referenceTokens c := by
  unfold Crypt.wpaTokens referenceTokens
  rw [version_eq_referenceCipher, authVersion_eq_referenceAuth]
  split_ifs <;> simp_all

/-- C2 (as amended): every mask with the `CryptWPA` bit, both version bits,
the PSK bit and the AES-CCM bit set and the TKIP and WPS bits clear is
labelled `[WPA-PSK-CCMP] [WPA2-PSK-CCMP][ESS]`: WPA token first, both kept,
no space before `[ESS]`. -/
theorem cryptString_wpa_wpa2_psk_ccmp (c : Crypt)
    (hwpa : c &&& CryptWPA ≠ 0)
    (hv1 : c &&& CryptVersionWPA ≠ 0) (hv2 : c &&& CryptVersionWPA2 ≠ 0)
    (hpsk : c &&& CryptPSK ≠ 0) (hccm : c &&& CryptAES_CCM ≠ 0)
    (htkip : c &&& CryptTKIP = 0) (hwps : c &&& CryptWPS = 0) :
    Crypt.String c = "[WPA-PSK-CCMP] [WPA2-PSK-CCMP][ESS]" := by
  rw [cryptString_of_wpa c hwpa]
  simp only [Crypt.wpsText, Crypt.wpaTokens, Crypt.version, Crypt.authVersion, hv1, hv2,
    hpsk, hccm, htkip, hwps, ne_eq, not_true_eq_false, not_false_eq_true, and_self,
    if_true, if_false]
  decide

/-- Witness for C2 as amended: the mask
`CryptWPA|CryptVersionWPA|CryptVersionWPA2|CryptPSK|CryptAES_CCM`. -/
theorem cryptString_wpa_wpa2_psk_ccmp_witness :
    Crypt.String (CryptWPA ||| CryptVersionWPA ||| CryptVersionWPA2 ||| CryptPSK |||
      CryptAES_CCM) = "[WPA-PSK-CCMP] [WPA2-PSK-CCMP][ESS]" :=
  cryptString_wpa_wpa2_psk_ccmp _ (by decide) (by decide) (by decide) (by decide)
    (by decide) (by decide) (by decide)

/-- C2 (as stated) fails: the mask `CryptVersionWPA|CryptVersionWPA2|CryptPSK|CryptAES_CCM`
has the four named bits set and the TKIP and WPS bits clear, and its label is
`[ESS]`, because the `CryptWPA` bit that guards the token branch is clear. -/
theorem cryptString_version_bits_alone :
    maskVersionsPskCcmp &&& CryptVersionWPA ≠ 0 ∧
      maskVersionsPskCcmp &&& CryptVersionWPA2 ≠ 0 ∧
      maskVersionsPskCcmp &&& CryptPSK ≠ 0 ∧ maskVersionsPskCcmp &&& CryptAES_CCM ≠ 0 ∧
      maskVersionsPskCcmp &&& CryptTKIP = 0 ∧ maskVersionsPskCcmp &&& CryptWPS = 0 ∧
      Crypt.String maskVersionsPskCcmp = "[ESS]" ∧
      Crypt.String maskVersionsPskCcmp ≠ "[WPA-PSK-CCMP] [WPA2-PSK-CCMP][ESS]" := by
  decide

/-- C3: for every mask with the `CryptWPA` bit set, `Crypt.String` returns the
reference label: `[WPS] ` exactly when the WPS bit is set, then the WPA
token or tokens built from the reference auth and cipher descriptors, then
`[ESS]` with no space before it. -/
theorem cryptString_eq_referenceLabel (c : Crypt) (h : c &&& CryptWPA ≠ 0) :
    Crypt.String c = referenceLabel c := by
  rw [cryptString_of_wpa c h, wpaTokens_eq_referenceTokens]
  rfl

/-- Witness for C3: the mask with only bit 64 set yields `[WPA--][ESS]`. -/
theorem cryptString_eq_referenceLabel_witness :
    CryptWPA = 64 ∧ Crypt.String 64 = referenceLabel 64 ∧
      referenceLabel 64 = "[WPA--][ESS]" :=
  ⟨by decide, cryptString_eq_referenceLabel 64 (by decide), by decide⟩

/-- C4: a mask whose low sixteen bits equal `CryptWEP` and whose WPS bit is
clear is labelled `[WEP][ESS]`, whatever bits above bit 15 are set. -/
theorem cryptString_wep (c : Crypt) (hwep : c &&& CryptProtectMask = CryptWEP)
    (hwps : c &&& CryptWPS = 0) : Crypt.String c = "[WEP][ESS]" := by
  rw [cryptString_of_not_wpa c (land_mask_wpa c hwep)]
  simp [hwep, hwps]

/-- Witness for C4: `CryptWEP` with the two version bits and the SAE bit,
all above bit 15, set as well. -/
theorem cryptString_wep_witness :
    Crypt.String (CryptWEP ||| CryptVersionWPA ||| CryptVersionWPA2 ||| CryptSAE) =
      "[WEP][ESS]" :=
  cryptString_wep _ (by decide) (by decide)

/-- C5: `Crypt.String` is a total function, and a mask with the WPS bit clear,
the `CryptWPA` bit clear and low sixteen bits other than `CryptWEP` is
labelled `[ESS]`. -/
theorem cryptString_minimal (c : Crypt) (hwps : c &&& CryptWPS = 0)
    (hwpa : c &&& CryptWPA = 0) (hwep : c &&& CryptProtectMask ≠ CryptWEP) :
    Crypt.String c = "[ESS]" := by
  rw [cryptString_of_not_wpa c hwpa]
  simp [hwep, hwps]

/-- Witness for C5: the all-zero mask. -/
theorem cryptString_minimal_witness : Crypt.String CryptNone = "[ESS]" :=
  cryptString_minimal CryptNone (by decide) (by decide) (by decide)

/-- C6: every label ends with `[ESS]`; it has no white space at either end
(trimming leaves it unchanged, its first character is `[` and its last is
`]`); and what stands before the final `[ESS]`, when anything does, ends with
`]`, not with a space. -/
theorem cryptString_shape (c : Crypt) :
    ∃ pre : String, Crypt.String c = pre ++ "[ESS]" ∧
      TrimSpace (Crypt.String c) = Crypt.String c ∧
      (Crypt.String c).data.head? = some '[' ∧
      (Crypt.String c).data.getLast? = some ']' ∧
      (pre ≠ "" → pre.data.getLast? = some ']') := by
  have hess : Bracketed "[ESS]".data := ⟨"ESS".data, rfl⟩
  by_cases h : c &&& CryptWPA = 0
  · rw [cryptString_of_not_wpa c h]
    split_ifs
    · exact ⟨"[WPS] [WEP]", by decide, by decide, by decide, by decide, fun _ => by decide⟩
    · exact ⟨"[WPS]", by decide, by decide, by decide, by decide, fun _ => by decide⟩
    · exact ⟨"[WEP]", by decide, by decide, by decide, by decide, fun _ => by decide⟩
    · exact ⟨"", by decide, by decide, by decide, by decide, fun hne => absurd rfl hne⟩
  · have hpre := wpsText_append_bracketed c _ (wpaTokens_bracketed c)
    have hall : Bracketed (c.wpsText ++ c.wpaTokens ++ "[ESS]").data := by
      rw [String.data_append]
      exact hpre.append hess
    rw [cryptString_of_wpa c h]
    exact ⟨c.wpsText ++ c.wpaTokens, rfl, TrimSpace_bracketed _ hall, hall.head,
      hall.getLast, fun _ => hpre.getLast⟩

/-! ## The channel mapper -/

/-! ### Rounding to float64 -/

/-- Rounding to the nearest integer gives the floor, or the floor plus one
when the value is at least one half above its floor. -/
theorem roundHalfEven_cases (k : ℚ) :
    roundHalfEven k = ⌊k⌋ ∨ (roundHalfEven k = ⌊k⌋ + 1 ∧ (1 : ℚ) / 2 ≤ k - ⌊k⌋) := by
  unfold roundHalfEven
  simp only []
  split_ifs with h1 h2 h3
  · exact Or.inl rfl
  · exact Or.inr ⟨rfl, le_of_lt h2⟩
  · exact Or.inl rfl
  · exact Or.inr ⟨rfl, not_lt.mp h1⟩

/-- Rounding to the nearest integer does not pass an integer above the value. -/
theorem roundHalfEven_le {k : ℚ} {N : ℤ} (h : k ≤ N) : roundHalfEven k ≤ N := by
  have hfl : ⌊k⌋ ≤ N := by
    have h' : (⌊k⌋ : ℚ) ≤ N := (Int.floor_le k).trans h
    exact_mod_cast h'
  rcases roundHalfEven_cases k with h1 | ⟨h1, h2⟩
  · rw [h1]; exact hfl
  · rw [h1]
    have hlt : ⌊k⌋ < N := by
      have h3 : (⌊k⌋ : ℚ) < N := by linarith
      exact_mod_cast h3
    omega

/-- Rounding to the nearest integer does not pass an integer below the value. -/
theorem le_roundHalfEven {k : ℚ} {N : ℤ} (h : (N : ℚ) ≤ k) : N ≤ roundHalfEven k := by
  have hfl : N ≤ ⌊k⌋ := Int.le_floor.mpr h
  rcases roundHalfEven_cases k with h1 | ⟨h1, _⟩
  · rw [h1]; exact hfl
  · rw [h1]; omega

/-- Every power of two is positive. -/
theorem two_zpow_pos (e : ℤ) : (0 : ℚ) < 2 ^ e := zpow_pos (by norm_num) e

/-- Either a representable value lies on the grid on which `q` is rounded, or
it is smaller in magnitude than the lower end of the binade of `q`. -/
theorem grid_or_small (q : ℚ) (hq : q ≠ 0) (m e : ℤ) (hm : |m| < 2 ^ 53) (he : -1074 ≤ e) :
    ulpExponent q ≤ e ∨
      (|(m : ℚ) * 2 ^ e| < 2 ^ (ulpExponent q + 52) ∧ (2 : ℚ) ^ (ulpExponent q + 52) ≤ |q|) := by
  by_cases hE : ulpExponent q ≤ e
  · exact Or.inl hE
  · right
    push_neg at hE
    have hpos : 0 < |q| := abs_pos.mpr hq
    have hL : ulpExponent q = Int.log 2 |q| - 52 := by
      unfold ulpExponent at hE ⊢
      have : -1022 < Int.log 2 |q| := by
        by_contra hcon
        push_neg at hcon
        rw [max_eq_right hcon] at hE
        omega
      rw [max_eq_left (le_of_lt this)]
    constructor
    · have hm' : |(m : ℚ)| < 2 ^ 53 := by
        have : ((|m| : ℤ) : ℚ) < ((2 ^ 53 : ℤ) : ℚ) := Int.cast_lt.mpr hm
        simpa using this
      rw [abs_mul, abs_of_pos (two_zpow_pos e)]
      calc |(m : ℚ)| * 2 ^ e < 2 ^ 53 * 2 ^ e :=
            mul_lt_mul_of_pos_right hm' (two_zpow_pos e)
        _ = 2 ^ (53 + e) := by
            rw [zpow_add₀ (by norm_num : (2 : ℚ) ≠ 0)]
            norm_num
        _ ≤ 2 ^ (ulpExponent q + 52) := by
            apply zpow_le_zpow_right₀ (by norm_num)
            omega
    · rw [hL]
      have := Int.zpow_log_le_self (b := 2) (r := |q|) (by norm_num) hpos
      simpa using this

/-- An integer rounds to itself. -/
theorem roundHalfEven_intCast (N : ℤ) : roundHalfEven (N : ℚ) = N :=
  le_antisymm (roundHalfEven_le le_rfl) (le_roundHalfEven le_rfl)

/-- Zero rounds to zero. -/
theorem roundFloat64_zero : roundFloat64 0 = 0 := by
  unfold roundFloat64
  rw [zero_div]
  have := roundHalfEven_intCast 0
  rw [Int.cast_zero] at this
  rw [this]
  simp

/-- A representable value written on the rounding grid of `q`. -/
theorem on_grid (m e E : ℤ) (h : E ≤ e) :
    (m : ℚ) * 2 ^ e = ((m * 2 ^ (e - E).toNat : ℤ) : ℚ) * 2 ^ E := by
  have h2 : (2 : ℚ) ≠ 0 := by norm_num
  have he : e = (e - E) + E := by ring
  have hn : ((e - E).toNat : ℤ) = e - E := Int.toNat_of_nonneg (by omega)
  push_cast
  rw [mul_assoc, ← zpow_natCast, hn, ← zpow_add₀ h2, ← he]

/-- Rounding does not cross a representable value from below. -/
theorem roundFloat64_le {q g : ℚ} (hg : IsFloat64 g) (h : q ≤ g) : roundFloat64 q ≤ g := by
  obtain ⟨m, e, hm, he, -, rfl⟩ := hg
  by_cases hq : q = 0
  · rw [hq, roundFloat64_zero]
    rw [hq] at h
    exact h
  have hu := two_zpow_pos (ulpExponent q)
  unfold roundFloat64
  rcases grid_or_small q hq m e hm he with hE | ⟨hsmall, hbig⟩
  · rw [on_grid m e _ hE] at h ⊢
    apply mul_le_mul_of_nonneg_right _ hu.le
    have : q / 2 ^ ulpExponent q ≤ ((m * 2 ^ (e - ulpExponent q).toNat : ℤ) : ℚ) := by
      rw [div_le_iff₀ hu]
      exact h
    exact_mod_cast roundHalfEven_le this
  · have hneg : q < 0 := by
      by_contra hcon
      push_neg at hcon
      have h1 : |q| = q := abs_of_nonneg hcon
      have h2 : (m : ℚ) * 2 ^ e ≤ |(m : ℚ) * 2 ^ e| := le_abs_self _
      linarith
    have h1 : |q| = -q := abs_of_neg hneg
    have hsplit : (2 : ℚ) ^ (ulpExponent q + 52) = 2 ^ 52 * 2 ^ ulpExponent q := by
      rw [zpow_add₀ (by norm_num : (2 : ℚ) ≠ 0), mul_comm]
      norm_num
    have hk : q / 2 ^ ulpExponent q ≤ ((-2 ^ 52 : ℤ) : ℚ) := by
      rw [div_le_iff₀ hu]
      push_cast
      linarith
    have hr : (roundHalfEven (q / 2 ^ ulpExponent q) : ℚ) ≤ ((-2 ^ 52 : ℤ) : ℚ) := by
      exact_mod_cast roundHalfEven_le hk
    have h3 : (roundHalfEven (q / 2 ^ ulpExponent q) : ℚ) * 2 ^ ulpExponent q ≤
        ((-2 ^ 52 : ℤ) : ℚ) * 2 ^ ulpExponent q := mul_le_mul_of_nonneg_right hr hu.le
    have h4 : -|(m : ℚ) * 2 ^ e| ≤ (m : ℚ) * 2 ^ e := neg_abs_le _
    push_cast at h3
    linarith

/-- Rounding does not cross a representable value from above. -/
theorem le_roundFloat64 {q g : ℚ} (hg : IsFloat64 g) (h : g ≤ q) : g ≤ roundFloat64 q := by
  obtain ⟨m, e, hm, he, -, rfl⟩ := hg
  by_cases hq : q = 0
  · rw [hq, roundFloat64_zero]
    rw [hq] at h
    exact h
  have hu := two_zpow_pos (ulpExponent q)
  unfold roundFloat64
  rcases grid_or_small q hq m e hm he with hE | ⟨hsmall, hbig⟩
  · rw [on_grid m e _ hE] at h ⊢
    apply mul_le_mul_of_nonneg_right _ hu.le
    have : ((m * 2 ^ (e - ulpExponent q).toNat : ℤ) : ℚ) ≤ q / 2 ^ ulpExponent q := by
      rw [le_div_iff₀ hu]
      exact h
    exact_mod_cast le_roundHalfEven this
  · have hpos : 0 < q := by
      by_contra hcon
      push_neg at hcon
      have h1 : |q| = -q := abs_of_nonpos hcon
      have h2 : -|(m : ℚ) * 2 ^ e| ≤ (m : ℚ) * 2 ^ e := neg_abs_le _
      linarith
    have h1 : |q| = q := abs_of_pos hpos
    have hsplit : (2 : ℚ) ^ (ulpExponent q + 52) = 2 ^ 52 * 2 ^ ulpExponent q := by
      rw [zpow_add₀ (by norm_num : (2 : ℚ) ≠ 0), mul_comm]
      norm_num
    have hk : ((2 ^ 52 : ℤ) : ℚ) ≤ q / 2 ^ ulpExponent q := by
      rw [le_div_iff₀ hu]
      push_cast
      linarith
    have hr : ((2 ^ 52 : ℤ) : ℚ) ≤ (roundHalfEven (q / 2 ^ ulpExponent q) : ℚ) := by
      exact_mod_cast le_roundHalfEven hk
    have h3 : ((2 ^ 52 : ℤ) : ℚ) * 2 ^ ulpExponent q ≤
        (roundHalfEven (q / 2 ^ ulpExponent q) : ℚ) * 2 ^ ulpExponent q :=
      mul_le_mul_of_nonneg_right hr hu.le
    have h4 : (m : ℚ) * 2 ^ e ≤ |(m : ℚ) * 2 ^ e| := le_abs_self _
    push_cast at h3
    linarith

/-- A representable value is left as it is. -/
theorem roundFloat64_of_isFloat64 {g : ℚ} (hg : IsFloat64 g) : roundFloat64 g = g :=
  le_antisymm (roundFloat64_le hg le_rfl) (le_roundFloat64 hg le_rfl)


/-- A fraction `a / 2^n` with `|a| < 2^53` and `n ≤ 1074` is a float64. -/
theorem isFloat64_dyadic (a : ℤ) (n : ℕ) (ha : |a| < 2 ^ 53) (hn : n ≤ 1074) :
    IsFloat64 ((a : ℚ) / 2 ^ n) := by
  refine ⟨a, -(n : ℤ), ha, by omega, by omega, ?_⟩
  rw [zpow_neg, zpow_natCast, div_eq_mul_inv]

/-- A whole number below `2^53` in magnitude is a float64. -/
theorem isFloat64_intCast (a : ℤ) (ha : |a| < 2 ^ 53) : IsFloat64 (a : ℚ) := by
  have := isFloat64_dyadic a 0 ha (by norm_num)
  simpa using this

/-- A value strictly between two consecutive integers is truncated to the one
nearer to zero. -/
theorem truncToInt_between (v : ℚ) (j : ℤ) (h1 : (j : ℚ) < v) (h2 : v < j + 1)
    (hj : |j| < 2 ^ 62) : truncToInt v = if 0 ≤ j then j else j + 1 := by
  have hfloor : ⌊v⌋ = j := by
    rw [Int.floor_eq_iff]
    exact ⟨h1.le, h2⟩
  have hceil : ⌈v⌉ = j + 1 := by
    rw [Int.ceil_eq_iff]
    push_cast
    constructor <;> linarith
  have hb := abs_lt.mp hj
  unfold truncToInt
  by_cases hv : 0 ≤ v
  · have hj0 : 0 ≤ j := by
      have : (-1 : ℚ) < j := by linarith
      have : (-1 : ℤ) < j := by exact_mod_cast this
      omega
    simp only [hv, if_true, hfloor, hj0]
    rw [if_pos (by omega)]
  · push_neg at hv
    have hj0 : ¬ 0 ≤ j := by
      intro hcon
      have : (0 : ℚ) ≤ j := by exact_mod_cast hcon
      linarith
    simp only [not_le.mpr hv, if_false, hceil, hj0]
    rw [if_pos (by omega)]

/-- A whole number of the 64-bit range is converted to itself. -/
theorem truncToInt_intCast (z : ℤ) (hz : |z| < 2 ^ 63) : truncToInt (z : ℚ) = z := by
  have hb := abs_lt.mp hz
  unfold truncToInt
  simp only [Int.floor_intCast, Int.ceil_intCast, ite_self]
  rw [if_pos (by omega)]

/-! ### Whole numbers of kilohertz -/

/-- The float64 quotient `x / 1000` is not above a whole number that the exact
quotient is not above. -/
theorem whole_le (x N : ℤ) (hN : |N| < 2 ^ 42) (h : (x : ℚ) / 1000 ≤ N) :
    roundFloat64 ((x : ℚ) / 1000) ≤ N :=
  roundFloat64_le
    (isFloat64_intCast N (by have := abs_lt.mp hN; rw [abs_lt]; constructor <;> omega)) h

/-- The float64 quotient `x / 1000` is not below a whole number that the exact
quotient is not below. -/
theorem whole_ge (x N : ℤ) (hN : |N| < 2 ^ 42) (h : (N : ℚ) ≤ (x : ℚ) / 1000) :
    (N : ℚ) ≤ roundFloat64 ((x : ℚ) / 1000) :=
  le_roundFloat64
    (isFloat64_intCast N (by have := abs_lt.mp hN; rw [abs_lt]; constructor <;> omega)) h

/-- The float64 quotient `x / 1000` of a whole `x` stays below a whole number
that the exact quotient is below. -/
theorem whole_lt (x N : ℤ) (hN : |N| < 2 ^ 42) (h : (x : ℚ) / 1000 < N) :
    roundFloat64 ((x : ℚ) / 1000) < N := by
  have hb := abs_lt.mp hN
  have hx : x < 1000 * N := by
    have : (x : ℚ) < 1000 * N := by
      rw [div_lt_iff₀ (by norm_num)] at h
      linarith
    exact_mod_cast this
  have hx' : (x : ℚ) ≤ 1000 * N - 1 := by
    have : x ≤ 1000 * N - 1 := by omega
    exact_mod_cast this
  have hg : IsFloat64 (((1024 * N - 1 : ℤ) : ℚ) / 2 ^ 10) :=
    isFloat64_dyadic _ 10 (by rw [abs_lt]; constructor <;> omega) (by norm_num)
  have hle : (x : ℚ) / 1000 ≤ ((1024 * N - 1 : ℤ) : ℚ) / 2 ^ 10 := by
    rw [div_le_div_iff₀ (by norm_num) (by norm_num)]
    push_cast
    nlinarith
  have := roundFloat64_le hg hle
  have hlt : ((1024 * N - 1 : ℤ) : ℚ) / 2 ^ 10 < N := by
    rw [div_lt_iff₀ (by norm_num)]
    push_cast
    linarith
  linarith

/-- The float64 quotient `x / 1000` of a whole `x` stays above a whole number
that the exact quotient is above. -/
theorem whole_gt (x N : ℤ) (hN : |N| < 2 ^ 42) (h : (N : ℚ) < (x : ℚ) / 1000) :
    (N : ℚ) < roundFloat64 ((x : ℚ) / 1000) := by
  have hb := abs_lt.mp hN
  have hx : 1000 * N < x := by
    have : (1000 * N : ℚ) < x := by
      rw [lt_div_iff₀ (by norm_num)] at h
      linarith
    exact_mod_cast this
  have hx' : (1000 * N + 1 : ℚ) ≤ x := by
    have : 1000 * N + 1 ≤ x := by omega
    exact_mod_cast this
  have hg : IsFloat64 (((1024 * N + 1 : ℤ) : ℚ) / 2 ^ 10) :=
    isFloat64_dyadic _ 10 (by rw [abs_lt]; constructor <;> omega) (by norm_num)
  have hle : ((1024 * N + 1 : ℤ) : ℚ) / 2 ^ 10 ≤ (x : ℚ) / 1000 := by
    rw [div_le_div_iff₀ (by norm_num) (by norm_num)]
    push_cast
    nlinarith
  have := le_roundFloat64 hg hle
  have hlt : (N : ℚ) < ((1024 * N + 1 : ℤ) : ℚ) / 2 ^ 10 := by
    rw [lt_div_iff₀ (by norm_num)]
    push_cast
    linarith
  linarith

/-- Comparing the float64 quotient `x / 1000` with a whole number gives what the
exact quotient gives: at most. -/
theorem whole_le_iff (x N : ℤ) (hN : |N| < 2 ^ 42) :
    roundFloat64 ((x : ℚ) / 1000) ≤ N ↔ (x : ℚ) / 1000 ≤ N :=
  ⟨fun h => not_lt.mp fun hc => absurd (whole_gt x N hN hc) (not_lt.mpr h), whole_le x N hN⟩

/-- Comparing the float64 quotient `x / 1000` with a whole number gives what the
exact quotient gives: at least. -/
theorem whole_ge_iff (x N : ℤ) (hN : |N| < 2 ^ 42) :
    roundFloat64 ((x : ℚ) / 1000) ≥ N ↔ (x : ℚ) / 1000 ≥ N :=
  ⟨fun h => not_lt.mp fun hc => absurd (whole_lt x N hN hc) (not_lt.mpr h), whole_ge x N hN⟩

/-- Comparing the float64 quotient `x / 1000` with a whole number gives what the
exact quotient gives: less. -/
theorem whole_lt_iff (x N : ℤ) (hN : |N| < 2 ^ 42) :
    roundFloat64 ((x : ℚ) / 1000) < N ↔ (x : ℚ) / 1000 < N :=
  ⟨fun h => not_le.mp fun hc => absurd (whole_ge x N hN hc) (not_le.mpr h), whole_lt x N hN⟩

/-- Comparing the float64 quotient `x / 1000` with a whole number gives what the
exact quotient gives: equal. -/
theorem whole_eq_iff (x N : ℤ) (hN : |N| < 2 ^ 42) :
    roundFloat64 ((x : ℚ) / 1000) = N ↔ (x : ℚ) / 1000 = N := by
  constructor
  · intro h
    exact le_antisymm ((whole_le_iff x N hN).mp h.le) ((whole_ge_iff x N hN).mp h.ge)
  · intro h
    exact le_antisymm (whole_le x N hN h.le) (whole_ge x N hN h.ge)

/-- The quotient rows on a whole number of kilohertz: the three roundings do
not move the quotient past an integer. -/
theorem whole_quotient (x c : ℤ) (hx : |x| < 2 ^ 36) (hc : |c| < 2 ^ 17) :
    truncToInt (roundFloat64 (roundFloat64 (roundFloat64 ((x : ℚ) / 1000) - c) / 5)) =
      truncToInt (((x : ℚ) / 1000 - c) / 5) := by
  have hxb := abs_lt.mp hx
  have hcb := abs_lt.mp hc
  obtain ⟨j, r, hr0, hr1, hxr⟩ : ∃ j r : ℤ, 0 ≤ r ∧ r < 5000 ∧ x - 1000 * c = 5000 * j + r :=
    ⟨(x - 1000 * c) / 5000, (x - 1000 * c) % 5000, by omega, by omega, by omega⟩
  have hjb : |j| < 2 ^ 30 := by rw [abs_lt]; constructor <;> omega
  have hjb' := abs_lt.mp hjb
  have hxq : (x : ℚ) = 1000 * c + 5000 * j + r := by
    have : x = 1000 * c + 5000 * j + r := by omega
    exact_mod_cast this
  by_cases hr : r = 0
  · -- the quotient is a whole number and every step is exact
    subst hr
    have hy : (x : ℚ) / 1000 = ((c + 5 * j : ℤ) : ℚ) := by
      rw [hxq]; push_cast; ring
    have h1 : roundFloat64 ((x : ℚ) / 1000) = ((c + 5 * j : ℤ) : ℚ) := by
      rw [hy]
      exact roundFloat64_of_isFloat64 (isFloat64_intCast _ (by rw [abs_lt]; constructor <;> omega))
    have h2 : roundFloat64 (((c + 5 * j : ℤ) : ℚ) - c) = ((5 * j : ℤ) : ℚ) := by
      have : ((c + 5 * j : ℤ) : ℚ) - c = ((5 * j : ℤ) : ℚ) := by push_cast; ring
      rw [this]
      exact roundFloat64_of_isFloat64 (isFloat64_intCast _ (by rw [abs_lt]; constructor <;> omega))
    have h3 : roundFloat64 (((5 * j : ℤ) : ℚ) / 5) = (j : ℚ) := by
      have : ((5 * j : ℤ) : ℚ) / 5 = (j : ℚ) := by push_cast; ring
      rw [this]
      exact roundFloat64_of_isFloat64 (isFloat64_intCast _ (by rw [abs_lt]; constructor <;> omega))
    rw [h1, h2, h3, hy]
    congr 1
    push_cast
    ring
  · have hr' : 1 ≤ r := by omega
    have hrq1 : (1 : ℚ) ≤ r := by exact_mod_cast hr'
    have hrq2 : (r : ℚ) ≤ 4999 := by
      have : r ≤ 4999 := by omega
      exact_mod_cast this
    -- lower bounds
    have g1 : IsFloat64 (((1024 * (c + 5 * j) + 1 : ℤ) : ℚ) / 2 ^ 10) :=
      isFloat64_dyadic _ 10 (by rw [abs_lt]; constructor <;> omega) (by norm_num)
    have g2 : IsFloat64 (((1024 * (5 * j) + 1 : ℤ) : ℚ) / 2 ^ 10) :=
      isFloat64_dyadic _ 10 (by rw [abs_lt]; constructor <;> omega) (by norm_num)
    have g3 : IsFloat64 (((8192 * j + 1 : ℤ) : ℚ) / 2 ^ 13) :=
      isFloat64_dyadic _ 13 (by rw [abs_lt]; constructor <;> omega) (by norm_num)
    have l1 := le_roundFloat64 (q := (x : ℚ) / 1000) g1 (by
      rw [div_le_div_iff₀ (by norm_num) (by norm_num), hxq]
      push_cast
      nlinarith)
    have l2 := le_roundFloat64 (q := roundFloat64 ((x : ℚ) / 1000) - c) g2 (by
      have e : ((1024 * (5 * j) + 1 : ℤ) : ℚ) / 2 ^ 10 =
          ((1024 * (c + 5 * j) + 1 : ℤ) : ℚ) / 2 ^ 10 - c := by push_cast; ring
      rw [e]
      linarith)
    have l3 := le_roundFloat64
      (q := roundFloat64 (roundFloat64 ((x : ℚ) / 1000) - c) / 5) g3 (by
      rw [le_div_iff₀ (by norm_num)]
      have e : ((8192 * j + 1 : ℤ) : ℚ) / 2 ^ 13 * 5 ≤
          ((1024 * (5 * j) + 1 : ℤ) : ℚ) / 2 ^ 10 := by
        push_cast
        norm_num
        linarith
      linarith)
    -- upper bounds
    have k1 : IsFloat64 (((1024 * (c + 5 * j + 5) - 1 : ℤ) : ℚ) / 2 ^ 10) :=
      isFloat64_dyadic _ 10 (by rw [abs_lt]; constructor <;> omega) (by norm_num)
    have k2 : IsFloat64 (((1024 * (5 * j + 5) - 1 : ℤ) : ℚ) / 2 ^ 10) :=
      isFloat64_dyadic _ 10 (by rw [abs_lt]; constructor <;> omega) (by norm_num)
    have k3 : IsFloat64 (((8192 * (j + 1) - 1 : ℤ) : ℚ) / 2 ^ 13) :=
      isFloat64_dyadic _ 13 (by rw [abs_lt]; constructor <;> omega) (by norm_num)
    have u1 := roundFloat64_le (q := (x : ℚ) / 1000) k1 (by
      rw [div_le_div_iff₀ (by norm_num) (by norm_num), hxq]
      push_cast
      nlinarith)
    have u2 := roundFloat64_le (q := roundFloat64 ((x : ℚ) / 1000) - c) k2 (by
      have e : ((1024 * (5 * j + 5) - 1 : ℤ) : ℚ) / 2 ^ 10 =
          ((1024 * (c + 5 * j + 5) - 1 : ℤ) : ℚ) / 2 ^ 10 - c := by push_cast; ring
      rw [e]
      linarith)
    have u3 := roundFloat64_le
      (q := roundFloat64 (roundFloat64 ((x : ℚ) / 1000) - c) / 5) k3 (by
      rw [div_le_iff₀ (by norm_num)]
      have e : ((1024 * (5 * j + 5) - 1 : ℤ) : ℚ) / 2 ^ 10 ≤
          ((8192 * (j + 1) - 1 : ℤ) : ℚ) / 2 ^ 13 * 5 := by
        push_cast
        norm_num
        linarith
      linarith)
    have hlo : (j : ℚ) < ((8192 * j + 1 : ℤ) : ℚ) / 2 ^ 13 := by
      rw [lt_div_iff₀ (by norm_num)]
      push_cast
      linarith
    have hhi : ((8192 * (j + 1) - 1 : ℤ) : ℚ) / 2 ^ 13 < j + 1 := by
      rw [div_lt_iff₀ (by norm_num)]
      push_cast
      linarith
    have hj62 : |j| < 2 ^ 62 := lt_trans hjb (by norm_num)
    rw [truncToInt_between _ j (by linarith) (by linarith) hj62,
      truncToInt_between (((x : ℚ) / 1000 - c) / 5) j
        (by rw [lt_div_iff₀ (by norm_num), hxq]; linarith)
        (by rw [div_lt_iff₀ (by norm_num), hxq]; linarith) hj62]

/-- The last row on a whole number of kilohertz below `2^52`: rounding the
megahertz value does not move it past an integer. -/
theorem whole_default (x : ℤ) (hx0 : 0 ≤ x) (hx : x < 2 ^ 52) :
    truncToInt (roundFloat64 ((x : ℚ) / 1000)) = ⌊(x : ℚ) / 1000⌋ := by
  obtain ⟨N, r, hr0, hr1, hxr⟩ : ∃ N r : ℤ, 0 ≤ r ∧ r < 1000 ∧ x = 1000 * N + r :=
    ⟨x / 1000, x % 1000, by omega, by omega, by omega⟩
  have hN0 : 0 ≤ N := by omega
  have hN1 : N < 2 ^ 43 := by omega
  have hxq : (x : ℚ) = 1000 * N + r := by exact_mod_cast hxr
  have hrq0 : (0 : ℚ) ≤ r := by exact_mod_cast hr0
  have hrq1 : (r : ℚ) ≤ 999 := by
    have : r ≤ 999 := by omega
    exact_mod_cast this
  have hfloor : ⌊(x : ℚ) / 1000⌋ = N := by
    rw [Int.floor_eq_iff]
    constructor
    · rw [le_div_iff₀ (by norm_num), hxq]; linarith
    · rw [div_lt_iff₀ (by norm_num), hxq]; linarith
  rw [hfloor]
  by_cases hr : r = 0
  · subst hr
    have hy : (x : ℚ) / 1000 = (N : ℚ) := by rw [hxq]; push_cast; ring
    rw [hy, roundFloat64_of_isFloat64 (isFloat64_intCast _ (by rw [abs_lt]; constructor <;> omega)),
      truncToInt_intCast _ (by rw [abs_lt]; constructor <;> omega)]
  · have hrq : (1 : ℚ) ≤ r := by
      have : 1 ≤ r := by omega
      exact_mod_cast this
    have g1 : IsFloat64 (((1024 * N + 1 : ℤ) : ℚ) / 2 ^ 10) :=
      isFloat64_dyadic _ 10 (by rw [abs_lt]; constructor <;> omega) (by norm_num)
    have k1 : IsFloat64 (((1024 * (N + 1) - 1 : ℤ) : ℚ) / 2 ^ 10) :=
      isFloat64_dyadic _ 10 (by rw [abs_lt]; constructor <;> omega) (by norm_num)
    have l1 := le_roundFloat64 (q := (x : ℚ) / 1000) g1 (by
      rw [div_le_div_iff₀ (by norm_num) (by norm_num), hxq]
      push_cast
      nlinarith)
    have u1 := roundFloat64_le (q := (x : ℚ) / 1000) k1 (by
      rw [div_le_div_iff₀ (by norm_num) (by norm_num), hxq]
      push_cast
      nlinarith)
    have hlo : (N : ℚ) < ((1024 * N + 1 : ℤ) : ℚ) / 2 ^ 10 := by
      rw [lt_div_iff₀ (by norm_num)]
      push_cast
      linarith
    have hhi : ((1024 * (N + 1) - 1 : ℤ) : ℚ) / 2 ^ 10 < N + 1 := by
      rw [div_lt_iff₀ (by norm_num)]
      push_cast
      linarith
    rw [truncToInt_between _ N (by linarith) (by linarith) (by rw [abs_lt]; constructor <;> omega),
      if_pos hN0]

/-- On a whole number of kilohertz below `2^52` in magnitude, the float64
evaluation agrees with the evaluation in exact arithmetic. -/
theorem frequencyToChannel_whole (x : ℤ) (hx : |x| < 2 ^ 52) :
    frequencyToChannel (x : ℚ) = frequencyToChannelExact (x : ℚ) := by
  have hxb := abs_lt.mp hx
  have c0 := whole_le_iff x 0 (by norm_num)
  have c1 := whole_eq_iff x 2484 (by norm_num)
  have c2 := whole_lt_iff x 2484 (by norm_num)
  have c3 := whole_ge_iff x 4910 (by norm_num)
  have c4 := whole_le_iff x 4980 (by norm_num)
  have c5 := whole_le_iff x 45000 (by norm_num)
  have c6 := whole_ge_iff x 58230 (by norm_num)
  have c7 := whole_le_iff x 6480 (by norm_num)
  push_cast at c0 c1 c2 c3 c4 c5 c6 c7
  unfold frequencyToChannel frequencyToChannelExact
  simp only [c0, c1, c2, c3, c4, c5, c6, c7]
  by_cases h0 : (x : ℚ) / 1000 ≤ 0
  · rw [if_pos h0, if_pos h0]
  rw [if_neg h0, if_neg h0]
  by_cases h1 : (x : ℚ) / 1000 = 2484
  · rw [if_pos h1, if_pos h1]
  rw [if_neg h1, if_neg h1]
  have hx0 : 0 < x := by
    push_neg at h0
    have : (0 : ℚ) < x := by
      rw [lt_div_iff₀ (by norm_num)] at h0
      linarith
    exact_mod_cast this
  by_cases h5 : (x : ℚ) / 1000 ≤ 45000
  · have hxs : |x| < 2 ^ 36 := by
      have : (x : ℚ) ≤ 45000000 := by
        rw [div_le_iff₀ (by norm_num)] at h5
        linarith
      have : x ≤ 45000000 := by exact_mod_cast this
      rw [abs_lt]
      constructor <;> omega
    have q1 := whole_quotient x 2407 hxs (by norm_num)
    have q2 := whole_quotient x 4000 hxs (by norm_num)
    have q3 := whole_quotient x 5000 hxs (by norm_num)
    push_cast at q1 q2 q3
    rw [q1, q2, q3]
    split_ifs <;> rfl
  · have h2 : ¬ (x : ℚ) / 1000 < 2484 := by push_neg at h5 ⊢; linarith
    have h3 : ¬ ((x : ℚ) / 1000 ≥ 4910 ∧ (x : ℚ) / 1000 ≤ 4980) := by
      rintro ⟨-, hb⟩
      push_neg at h5
      linarith
    have h6 : ¬ ((x : ℚ) / 1000 ≥ 58230 ∧ (x : ℚ) / 1000 ≤ 6480) := by
      rintro ⟨ha, hb⟩
      linarith
    rw [if_neg h2, if_neg h2, if_neg h3, if_neg h3, if_neg h5, if_neg h5, if_neg h6, if_neg h6,
      whole_default x hx0.le hxb.2]
    push_neg at h0
    unfold truncToInt
    simp only [h0.le, if_true]
    rw [if_pos]
    have hf0 : 0 ≤ ⌊(x : ℚ) / 1000⌋ := Int.floor_nonneg.mpr h0.le
    have hf1 : ⌊(x : ℚ) / 1000⌋ ≤ x := by
      have : (⌊(x : ℚ) / 1000⌋ : ℚ) ≤ x := by
        have := Int.floor_le ((x : ℚ) / 1000)
        have hxq : (0 : ℚ) < x := by exact_mod_cast hx0
        have : (x : ℚ) / 1000 ≤ x := by
          rw [div_le_iff₀ (by norm_num)]
          linarith
        linarith
      exact_mod_cast this
    constructor <;> omega

/-! ### Bounds on the conversion and on one rounding -/

/-- Within the 64-bit range the conversion is the floor of a value that is
not negative and the ceiling of a negative one. -/
theorem truncToInt_of_abs_lt (x : ℚ) (hx : |x| < 2 ^ 63) :
    truncToInt x = if 0 ≤ x then ⌊x⌋ else ⌈x⌉ := by
  have hxb := abs_lt.mp hx
  unfold truncToInt
  simp only []
  by_cases h : 0 ≤ x
  · simp only [h, if_true]
    have h0 : (0 : ℤ) ≤ ⌊x⌋ := Int.floor_nonneg.mpr h
    have h1 : (⌊x⌋ : ℚ) ≤ x := Int.floor_le x
    have h3 : ⌊x⌋ < 2 ^ 63 := by
      have : (⌊x⌋ : ℚ) < ((2 ^ 63 : ℤ) : ℚ) := by push_cast; linarith
      exact_mod_cast this
    rw [if_pos ⟨by omega, h3⟩]
  · simp only [h, if_false]
    push_neg at h
    have h0 : ⌈x⌉ ≤ (0 : ℤ) := Int.ceil_le.mpr (by exact_mod_cast h.le)
    have h1 : x ≤ (⌈x⌉ : ℚ) := Int.le_ceil x
    have h3 : -2 ^ 63 ≤ ⌈x⌉ := by
      have : ((-2 ^ 63 : ℤ) : ℚ) ≤ (⌈x⌉ : ℚ) := by push_cast; linarith
      exact_mod_cast this
    rw [if_pos ⟨h3, by omega⟩]

/-- The result of the conversion is an `int`: it lies in the 64-bit range. -/
theorem truncToInt_range (x : ℚ) : -2 ^ 63 ≤ truncToInt x ∧ truncToInt x < 2 ^ 63 := by
  unfold truncToInt
  simp only []
  generalize (if 0 ≤ x then ⌊x⌋ else ⌈x⌉) = t
  by_cases h : -2 ^ 63 ≤ t ∧ t < 2 ^ 63
  · rw [if_pos h]
    exact h
  · rw [if_neg h]
    constructor <;> norm_num

/-- The result of `frequencyToChannel` is an `int`: it is below `2^63`. -/
theorem frequencyToChannel_lt (input : ℚ) : frequencyToChannel input < 2 ^ 63 := by
  unfold frequencyToChannel
  simp only []
  split_ifs
  · norm_num
  · norm_num
  all_goals exact (truncToInt_range _).2

/-- Rounding to the nearest integer moves a value by at most one half. -/
theorem roundHalfEven_le_add_half (k : ℚ) : (roundHalfEven k : ℚ) ≤ k + 1 / 2 := by
  rcases roundHalfEven_cases k with h | ⟨h, h2⟩
  · rw [h]
    have := Int.floor_le k
    linarith
  · rw [h]
    push_cast
    linarith

/-- The integer nearest to a value: the one less than one half away. -/
theorem roundHalfEven_eq_of_near (k : ℚ) (n : ℤ) (h1 : k - n < 1 / 2) (h2 : n - k < 1 / 2) :
    roundHalfEven k = n := by
  unfold roundHalfEven
  simp only []
  by_cases h : (n : ℚ) ≤ k
  · have hf : ⌊k⌋ = n := by
      rw [Int.floor_eq_iff]
      exact ⟨h, by linarith⟩
    rw [hf, if_pos h1]
  · push_neg at h
    have hf : ⌊k⌋ = n - 1 := by
      rw [Int.floor_eq_iff]
      push_cast
      exact ⟨by linarith, by linarith⟩
    rw [hf]
    push_cast
    rw [if_neg (by linarith), if_pos (by linarith)]
    ring

/-- The exponent of the unit in the last place of a value in the binade
`[2^L, 2^(L+1))` of the normal range. -/
theorem ulpExponent_eq (q : ℚ) (L : ℤ) (hL : -1022 ≤ L) (h1 : (2 : ℚ) ^ L ≤ |q|)
    (h2 : |q| < (2 : ℚ) ^ (L + 1)) : ulpExponent q = L - 52 := by
  have hpos : (0 : ℚ) < |q| := lt_of_lt_of_le (two_zpow_pos L) h1
  have hlog : Int.log 2 |q| = L := by
    apply le_antisymm
    · have := (Int.lt_zpow_iff_log_lt (by norm_num : 1 < 2) hpos).mp (by exact_mod_cast h2)
      omega
    · exact (Int.zpow_le_iff_le_log (by norm_num : 1 < 2) hpos).mp (by exact_mod_cast h1)
  unfold ulpExponent
  rw [hlog, max_eq_left hL]

/-- The float64 nearest to a value of the normal range, from its binade and
the nearest multiple of the unit in the last place. -/
theorem roundFloat64_eq (q : ℚ) (L k : ℤ) (hL : -1022 ≤ L) (h1 : (2 : ℚ) ^ L ≤ |q|)
    (h2 : |q| < (2 : ℚ) ^ (L + 1)) (hk : roundHalfEven (q / 2 ^ (L - 52)) = k) :
    roundFloat64 q = k * 2 ^ (L - 52) := by
  unfold roundFloat64
  rw [ulpExponent_eq q L hL h1 h2, hk]

/-- The error of one rounding: the float64 nearest to a positive value `q` of
the normal range exceeds it by at most `q / 2^53`. -/
theorem roundFloat64_le_add (q : ℚ) (hq : (2 : ℚ) ^ (-1022 : ℤ) ≤ q) :
    roundFloat64 q ≤ q + q / 2 ^ 53 := by
  have hpos : (0 : ℚ) < q := lt_of_lt_of_le (two_zpow_pos _) hq
  have habs : |q| = q := abs_of_pos hpos
  have hlog : -1022 ≤ Int.log 2 |q| := by
    rw [habs]
    exact (Int.zpow_le_iff_le_log (by norm_num : 1 < 2) hpos).mp (by exact_mod_cast hq)
  have hle : (2 : ℚ) ^ Int.log 2 |q| ≤ q := by
    rw [habs]
    exact_mod_cast Int.zpow_log_le_self (by norm_num : 1 < 2) hpos
  have he : ulpExponent q = Int.log 2 |q| - 52 := by
    unfold ulpExponent
    rw [max_eq_left hlog]
  unfold roundFloat64
  rw [he]
  have hp := two_zpow_pos (Int.log 2 |q| - 52)
  have hsplit : (2 : ℚ) ^ Int.log 2 |q| = 2 ^ (Int.log 2 |q| - 52) * 2 ^ (52 : ℕ) := by
    rw [← zpow_natCast, ← zpow_add₀ (by norm_num : (2 : ℚ) ≠ 0)]
    congr 1
    push_cast
    ring
  have hr := roundHalfEven_le_add_half (q / 2 ^ (Int.log 2 |q| - 52))
  have h3 : (roundHalfEven (q / 2 ^ (Int.log 2 |q| - 52)) : ℚ) * 2 ^ (Int.log 2 |q| - 52) ≤
      (q / 2 ^ (Int.log 2 |q| - 52) + 1 / 2) * 2 ^ (Int.log 2 |q| - 52) :=
    mul_le_mul_of_nonneg_right hr hp.le
  have h4 : (q / 2 ^ (Int.log 2 |q| - 52) + 1 / 2) * 2 ^ (Int.log 2 |q| - 52) =
      q + 2 ^ (Int.log 2 |q| - 52) / 2 := by
    field_simp
    ring
  rw [h4] at h3
  have h5 : (2 : ℚ) ^ (Int.log 2 |q| - 52) * 2 ^ (52 : ℕ) ≤ q := by rw [← hsplit]; exact hle
  have h6 : (2 : ℚ) ^ (Int.log 2 |q| - 52) / 2 ≤ q / 2 ^ 53 := by
    rw [div_le_div_iff₀ (by norm_num) (by norm_num)]
    nlinarith
  linarith

/-- Rounding keeps a value between two whole numbers that are float64
values. -/
theorem roundFloat64_between (v : ℚ) (a b : ℤ) (ha : |a| < 2 ^ 53) (hb : |b| < 2 ^ 53)
    (h1 : (a : ℚ) ≤ v) (h2 : v ≤ b) : (a : ℚ) ≤ roundFloat64 v ∧ roundFloat64 v ≤ b :=
  ⟨le_roundFloat64 (isFloat64_intCast a ha) h1, roundFloat64_le (isFloat64_intCast b hb) h2⟩

/-- The float64 quotient `(f - c) / 5` of the band formulas stays between the
whole numbers that bound the exact quotient. -/
theorem quotient_between (f : ℚ) (c a b : ℤ) (ha : |a| < 2 ^ 50) (hb : |b| < 2 ^ 50)
    (h1 : (5 * a : ℚ) ≤ f - c) (h2 : f - c ≤ 5 * b) :
    (a : ℚ) ≤ roundFloat64 (roundFloat64 (f - c) / 5) ∧
      roundFloat64 (roundFloat64 (f - c) / 5) ≤ b := by
  have hab := abs_lt.mp ha
  have hbb := abs_lt.mp hb
  obtain ⟨h3, h4⟩ := roundFloat64_between (f - c) (5 * a) (5 * b)
    (by rw [abs_lt]; constructor <;> omega) (by rw [abs_lt]; constructor <;> omega)
    (by push_cast; exact h1) (by push_cast; exact h2)
  push_cast at h3 h4
  exact roundFloat64_between _ a b (by rw [abs_lt]; constructor <;> omega)
    (by rw [abs_lt]; constructor <;> omega) (by linarith) (by linarith)

/-- The rows of the band table for the evaluation in exact arithmetic, the
truncation written as a floor or a ceiling. -/
theorem frequencyToChannelExact_rows (input : ℚ) (hb : input / 1000 < 2 ^ 63) :
    (input / 1000 ≤ 0 → frequencyToChannelExact input = 0) ∧
    (input / 1000 = 2484 → frequencyToChannelExact input = 14) ∧
    (0 < input / 1000 → input / 1000 < 2484 →
      frequencyToChannelExact input =
        if 2407 ≤ input / 1000 then ⌊(input / 1000 - 2407) / 5⌋
        else ⌈(input / 1000 - 2407) / 5⌉) ∧
    (4910 ≤ input / 1000 → input / 1000 ≤ 4980 →
      frequencyToChannelExact input = ⌊(input / 1000 - 4000) / 5⌋) ∧
    (2484 < input / 1000 → input / 1000 ≤ 45000 →
      ¬ (4910 ≤ input / 1000 ∧ input / 1000 ≤ 4980) →
      frequencyToChannelExact input =
        if 5000 ≤ input / 1000 then ⌊(input / 1000 - 5000) / 5⌋
        else ⌈(input / 1000 - 5000) / 5⌉) ∧
    (45000 < input / 1000 → frequencyToChannelExact input = ⌊input / 1000⌋) := by
  unfold frequencyToChannelExact
  simp only []
  refine ⟨fun h => ?_, fun h => ?_, fun h0 h1 => ?_, fun h0 h1 => ?_, fun h0 h1 h2 => ?_,
    fun h => ?_⟩
  · rw [if_pos h]
  · rw [if_neg (by rw [h]; norm_num), if_pos h]
  · rw [if_neg (by linarith), if_neg (by linarith), if_pos h1,
      truncToInt_of_abs_lt _ (by rw [abs_lt]; constructor <;> linarith)]
    by_cases h : 2407 ≤ input / 1000
    · rw [if_pos h, if_pos (by linarith)]
    · rw [if_neg h, if_neg (by push_neg at h ⊢; linarith)]
  · rw [if_neg (by linarith), if_neg (by linarith), if_neg (by linarith), if_pos ⟨h0, h1⟩,
      truncToInt_of_abs_lt _ (by rw [abs_lt]; constructor <;> linarith),
      if_pos (by linarith)]
  · rw [if_neg (by linarith), if_neg (by linarith), if_neg (by linarith), if_neg h2,
      if_pos h1, truncToInt_of_abs_lt _ (by rw [abs_lt]; constructor <;> linarith)]
    by_cases h : 5000 ≤ input / 1000
    · rw [if_pos h, if_pos (by linarith)]
    · rw [if_neg h, if_neg (by push_neg at h ⊢; linarith)]
  · rw [if_neg (by linarith), if_neg (by linarith), if_neg (by linarith),
      if_neg (by rintro ⟨-, hc⟩; linarith), if_neg (by linarith),
      if_neg (by rintro ⟨ha, hc⟩; linarith),
      truncToInt_of_abs_lt _ (by rw [abs_lt]; constructor <;> linarith),
      if_pos (by linarith)]

/-- The rows of the band table for the float64 evaluation, on every input:
`f` is the float64 quotient `input / 1000`, each band quotient is computed in
float64, and the truncation is written as a floor or a ceiling. -/
theorem frequencyToChannel_rows (input f : ℚ) (hf : f = roundFloat64 (input / 1000)) :
    (f ≤ 0 → frequencyToChannel input = 0) ∧
    (f = 2484 → frequencyToChannel input = 14) ∧
    (0 < f → f < 2484 → ∀ q, q = roundFloat64 (roundFloat64 (f - 2407) / 5) →
      frequencyToChannel input = if 0 ≤ q then ⌊q⌋ else ⌈q⌉) ∧
    (4910 ≤ f → f ≤ 4980 → ∀ q, q = roundFloat64 (roundFloat64 (f - 4000) / 5) →
      frequencyToChannel input = ⌊q⌋) ∧
    (2484 < f → f ≤ 45000 → ¬ (4910 ≤ f ∧ f ≤ 4980) →
      ∀ q, q = roundFloat64 (roundFloat64 (f - 5000) / 5) →
      frequencyToChannel input = if 0 ≤ q then ⌊q⌋ else ⌈q⌉) ∧
    (45000 < f → f < 2 ^ 63 → frequencyToChannel input = ⌊f⌋) := by
  unfold frequencyToChannel
  simp only []
  rw [← hf]
  refine ⟨fun h => ?_, fun h => ?_, fun h0 h1 q hq => ?_, fun h0 h1 q hq => ?_,
    fun h0 h1 h2 q hq => ?_, fun h hb => ?_⟩
  · rw [if_pos h]
  · rw [if_neg (by rw [h]; norm_num), if_pos h]
  · rw [if_neg (by linarith), if_neg (by linarith), if_pos h1, ← hq]
    obtain ⟨h3, h4⟩ := quotient_between f 2407 (-482) 16 (by norm_num) (by norm_num)
      (by push_cast; linarith) (by push_cast; linarith)
    push_cast at h3 h4
    rw [← hq] at h3 h4
    exact truncToInt_of_abs_lt _ (by rw [abs_lt]; constructor <;> linarith)
  · rw [if_neg (by linarith), if_neg (by linarith), if_neg (by linarith), if_pos ⟨h0, h1⟩,
      ← hq]
    obtain ⟨h3, h4⟩ := quotient_between f 4000 182 196 (by norm_num) (by norm_num)
      (by push_cast; linarith) (by push_cast; linarith)
    push_cast at h3 h4
    rw [← hq] at h3 h4
    rw [truncToInt_of_abs_lt _ (by rw [abs_lt]; constructor <;> linarith),
      if_pos (by linarith)]
  · rw [if_neg (by linarith), if_neg (by linarith), if_neg (by linarith), if_neg h2,
      if_pos h1, ← hq]
    obtain ⟨h3, h4⟩ := quotient_between f 5000 (-504) 8000 (by norm_num) (by norm_num)
      (by push_cast; linarith) (by push_cast; linarith)
    push_cast at h3 h4
    rw [← hq] at h3 h4
    exact truncToInt_of_abs_lt _ (by rw [abs_lt]; constructor <;> linarith)
  · rw [if_neg (by linarith), if_neg (by linarith), if_neg (by linarith),
      if_neg (by rintro ⟨-, hc⟩; linarith), if_neg (by linarith),
      if_neg (by rintro ⟨ha, hc⟩; linarith),
      truncToInt_of_abs_lt _ (by rw [abs_lt]; constructor <;> linarith),
      if_pos (by linarith)]

/-- A whole number of kilohertz below `2^52` in magnitude, divided by 1000,
is below `2^63`. -/
theorem whole_div_lt (x : ℤ) (hx : |x| < 2 ^ 52) : (x : ℚ) / 1000 < 2 ^ 63 := by
  have hxb := abs_lt.mp hx
  have h1 : (x : ℚ) < ((2 ^ 52 : ℤ) : ℚ) := by exact_mod_cast hxb.2
  push_cast at h1
  rw [div_lt_iff₀ (by norm_num)]
  linarith

/-- The value of the exact evaluation at a whole number, for the proofs
below. -/
theorem frequencyToChannel_of_whole (x : ℤ) (hx : |x| < 2 ^ 52) (z : ℤ)
    (h : frequencyToChannelExact (x : ℚ) = z) : frequencyToChannel (x : ℚ) = z := by
  rw [frequencyToChannel_whole x hx, h]

/-- The conversion rounds toward zero: within the 64-bit range the result is
no larger in magnitude than the value, less than one away from it, and on the
same side of zero. -/
theorem truncToInt_toward_zero (x : ℚ) (hx : |x| < 2 ^ 63) :
    |(truncToInt x : ℚ)| ≤ |x| ∧ |x| < |(truncToInt x : ℚ)| + 1 ∧
      (0 ≤ x → 0 ≤ truncToInt x) ∧ (x ≤ 0 → truncToInt x ≤ 0) := by
  have hxb := abs_lt.mp hx
  unfold truncToInt
  by_cases h : 0 ≤ x
  · simp only [h, if_true]
    have h0 : (0 : ℤ) ≤ ⌊x⌋ := Int.floor_nonneg.mpr h
    have h0q : (0 : ℚ) ≤ (⌊x⌋ : ℚ) := by exact_mod_cast h0
    have h1 : (⌊x⌋ : ℚ) ≤ x := Int.floor_le x
    have h2 : x < (⌊x⌋ : ℚ) + 1 := Int.lt_floor_add_one x
    have h3 : ⌊x⌋ < 2 ^ 63 := by
      have : (⌊x⌋ : ℚ) < ((2 ^ 63 : ℤ) : ℚ) := by push_cast; linarith
      exact_mod_cast this
    rw [if_pos ⟨by omega, h3⟩, abs_of_nonneg h0q, abs_of_nonneg h]
    refine ⟨h1, h2, fun _ => h0, fun hx0 => ?_⟩
    have hx0' : x = 0 := le_antisymm hx0 h
    rw [hx0']
    simp
  · simp only [h, if_false]
    push_neg at h
    have h0 : ⌈x⌉ ≤ (0 : ℤ) := Int.ceil_le.mpr (by exact_mod_cast h.le)
    have h0q : (⌈x⌉ : ℚ) ≤ 0 := by exact_mod_cast h0
    have h1 : x ≤ (⌈x⌉ : ℚ) := Int.le_ceil x
    have h2 : (⌈x⌉ : ℚ) < x + 1 := Int.ceil_lt_add_one x
    have h3 : -2 ^ 63 ≤ ⌈x⌉ := by
      have : ((-2 ^ 63 : ℤ) : ℚ) ≤ (⌈x⌉ : ℚ) := by push_cast; linarith
      exact_mod_cast this
    rw [if_pos ⟨h3, by omega⟩, abs_of_nonpos h0q, abs_of_neg h]
    exact ⟨by linarith, by linarith, fun hx0 => hx0.elim, fun _ => h0⟩

/-- C7: the standard centre frequencies map to their channel numbers:
`(2407 + 5n) * 1000` to `n` for `1 ≤ n ≤ 13`, `2484000` to 14,
`(5000 + 5n) * 1000` to `n` for `0 ≤ n ≤ 8000` (no such frequency lies in
4910..4980, so that exclusion needs no hypothesis), and `0` to 0. -/
theorem frequencyToChannel_standard (n : ℤ) :
    (1 ≤ n → n ≤ 13 → frequencyToChannel (((2407 + 5 * n : ℤ) : ℚ) * 1000) = n) ∧
    frequencyToChannel 2484000 = 14 ∧
    (0 ≤ n → n ≤ 8000 → frequencyToChannel (((5000 + 5 * n : ℤ) : ℚ) * 1000) = n) ∧
    frequencyToChannel 0 = 0 := by
  refine ⟨fun h1 h13 => ?_, ?_, fun h0 h8000 => ?_, ?_⟩
  · have hq1 : (1 : ℚ) ≤ n := by exact_mod_cast h1
    have hq13 : (n : ℚ) ≤ 13 := by exact_mod_cast h13
    have hcast : ((2407 + 5 * n : ℤ) : ℚ) * 1000 = (((2407 + 5 * n) * 1000 : ℤ) : ℚ) := by
      push_cast
      ring
    rw [hcast]
    apply frequencyToChannel_of_whole _ (by rw [abs_lt]; constructor <;> omega)
    rw [← hcast]
    have e : (((2407 + 5 * n : ℤ) : ℚ) * 1000) / 1000 = 2407 + 5 * (n : ℚ) := by
      push_cast
      ring
    have e2 : (2407 + 5 * (n : ℚ) - 2407) / 5 = n := by ring
    unfold frequencyToChannelExact
    simp only [e]
    rw [if_neg (by linarith), if_neg (by linarith), if_pos (by linarith), e2,
      truncToInt_intCast _ (by rw [abs_lt]; constructor <;> omega)]
  · have hcast : (2484000 : ℚ) = ((2484000 : ℤ) : ℚ) := by norm_num
    rw [hcast]
    apply frequencyToChannel_of_whole _ (by norm_num)
    norm_num [frequencyToChannelExact]
  · have hq0 : (0 : ℚ) ≤ n := by exact_mod_cast h0
    have hq8 : (n : ℚ) ≤ 8000 := by exact_mod_cast h8000
    have hcast : ((5000 + 5 * n : ℤ) : ℚ) * 1000 = (((5000 + 5 * n) * 1000 : ℤ) : ℚ) := by
      push_cast
      ring
    rw [hcast]
    apply frequencyToChannel_of_whole _ (by rw [abs_lt]; constructor <;> omega)
    rw [← hcast]
    have e : (((5000 + 5 * n : ℤ) : ℚ) * 1000) / 1000 = 5000 + 5 * (n : ℚ) := by
      push_cast
      ring
    have e2 : (5000 + 5 * (n : ℚ) - 5000) / 5 = n := by ring
    unfold frequencyToChannelExact
    simp only [e]
    rw [if_neg (by linarith), if_neg (by linarith), if_neg (by linarith),
      if_neg (by rintro ⟨-, h⟩; linarith), if_pos (by linarith), e2,
      truncToInt_intCast _ (by rw [abs_lt]; constructor <;> omega)]
  · have hcast : (0 : ℚ) = ((0 : ℤ) : ℚ) := by norm_num
    rw [hcast]
    apply frequencyToChannel_of_whole _ (by norm_num)
    norm_num [frequencyToChannelExact]

/-- Witness for C7: 2412000 gives 1, 2484000 gives 14, 5180000 gives 36 and
0 gives 0. -/
theorem frequencyToChannel_standard_witness :
    frequencyToChannel 2412000 = 1 ∧ frequencyToChannel 2484000 = 14 ∧
      frequencyToChannel 5180000 = 36 ∧ frequencyToChannel 0 = 0 := by
  have h1 := (frequencyToChannel_standard 1).1 (by decide) (by decide)
  have h36 := (frequencyToChannel_standard 36).2.2.1 (by decide) (by decide)
  have h14 := (frequencyToChannel_standard 0).2.1
  have h0 := (frequencyToChannel_standard 0).2.2.2
  norm_num at h1 h36
  exact ⟨h1, h14, h36, h0⟩

/-! ### The claims on the channel mapper -/

/-- C8 (as amended): on every input whose float64 quotient `f = input / 1000`
satisfies `0 < f < 2484`, the result is the float64 quotient `(f - 2407) / 5`
truncated toward zero, its floor when it is not negative and its ceiling when
it is; on an input that is a whole number `x` of kilohertz that is
`(f - 2407) / 5` truncated toward zero with `f = x / 1000` and the quotient in
exact arithmetic: its floor when `f ≥ 2407` and its ceiling when
`f < 2407`. -/
theorem frequencyToChannel_low_band (input f : ℚ) (hf : f = roundFloat64 (input / 1000))
    (h0 : 0 < f) (h1 : f < 2484) :
    (∀ q, q = roundFloat64 (roundFloat64 (f - 2407) / 5) →
      frequencyToChannel input = if 0 ≤ q then ⌊q⌋ else ⌈q⌉) ∧
    (∀ x : ℤ, input = x →
      0 < (x : ℚ) / 1000 ∧ (x : ℚ) / 1000 < 2484 ∧
      frequencyToChannel input =
        if 2407 ≤ (x : ℚ) / 1000 then ⌊((x : ℚ) / 1000 - 2407) / 5⌋
        else ⌈((x : ℚ) / 1000 - 2407) / 5⌉) := by
  refine ⟨(frequencyToChannel_rows input f hf).2.2.1 h0 h1, fun x hx => ?_⟩
  subst hx
  have g0 : 0 < (x : ℚ) / 1000 := by
    by_contra hc
    have := (whole_le_iff x 0 (by norm_num)).mpr (by push_cast; exact not_lt.mp hc)
    rw [← hf] at this
    push_cast at this
    linarith
  have g1 : (x : ℚ) / 1000 < 2484 := by
    have := (whole_lt_iff x 2484 (by norm_num)).mp (by rw [← hf]; push_cast; exact h1)
    push_cast at this
    exact this
  have hx0 : 0 < x := by
    have : (0 : ℚ) < x := by
      rw [lt_div_iff₀ (by norm_num)] at g0
      linarith
    exact_mod_cast this
  have hx1 : x < 2484000 := by
    have : (x : ℚ) < ((2484000 : ℤ) : ℚ) := by
      rw [div_lt_iff₀ (by norm_num)] at g1
      push_cast
      linarith
    exact_mod_cast this
  have hx : |x| < 2 ^ 52 := by rw [abs_lt]; constructor <;> omega
  refine ⟨g0, g1, ?_⟩
  rw [frequencyToChannel_whole x hx]
  exact (frequencyToChannelExact_rows (x : ℚ) (whole_div_lt x hx)).2.2.1 g0 g1

/-- Witness for C8 as amended: 2412000 on the floor side gives 1, and
2403000, where `(f - 2407) / 5 = -0.8`, gives 0 on the ceiling side. -/
theorem frequencyToChannel_low_band_witness :
    frequencyToChannel 2412000 = 1 ∧ frequencyToChannel 2403000 = 0 := by
  have hf1 : (2412 : ℚ) = roundFloat64 (2412000 / 1000) := by
    have e : (2412000 : ℚ) / 1000 = ((2412 : ℤ) : ℚ) := by norm_num
    rw [e, roundFloat64_of_isFloat64 (isFloat64_intCast _ (by norm_num))]
    norm_num
  have hf2 : (2403 : ℚ) = roundFloat64 (2403000 / 1000) := by
    have e : (2403000 : ℚ) / 1000 = ((2403 : ℤ) : ℚ) := by norm_num
    rw [e, roundFloat64_of_isFloat64 (isFloat64_intCast _ (by norm_num))]
    norm_num
  have h1 := ((frequencyToChannel_low_band 2412000 2412 hf1 (by norm_num) (by norm_num)).2
    2412000 (by norm_num)).2.2
  have h2 := ((frequencyToChannel_low_band 2403000 2403 hf2 (by norm_num) (by norm_num)).2
    2403000 (by norm_num)).2.2
  norm_num [Int.floor_eq_iff] at h1
  norm_num [Int.ceil_neg] at h2
  exact ⟨h1, h2⟩

/-- C8 (as stated) fails: for the input 2400000, `f = 2400` lies in
`0 < f < 2484`, the floor of `(f - 2407) / 5 = -1.4` is -2, and the result
is -1. -/
theorem frequencyToChannel_2400000 :
    (0 : ℚ) < 2400000 / 1000 ∧ (2400000 : ℚ) / 1000 < 2484 ∧
      ⌊((2400000 : ℚ) / 1000 - 2407) / 5⌋ = -2 ∧ frequencyToChannel 2400000 = -1 ∧
      frequencyToChannel 2400000 ≠ ⌊((2400000 : ℚ) / 1000 - 2407) / 5⌋ := by
  have hf : ⌊((2400000 : ℚ) / 1000 - 2407) / 5⌋ = -2 := by
    norm_num [Int.floor_eq_iff]
  have hc : frequencyToChannel 2400000 = -1 := by
    have hcast : (2400000 : ℚ) = ((2400000 : ℤ) : ℚ) := by norm_num
    rw [hcast, frequencyToChannel_whole _ (by norm_num)]
    norm_num [frequencyToChannelExact, truncToInt, Int.ceil_neg]
  refine ⟨by norm_num, by norm_num, hf, hc, ?_⟩
  rw [hf, hc]
  decide

/-- Why the band quotients are those of float64, and exact only on whole
numbers of kilohertz: the float64 `2000 + 2^-42` (printed 2000.0000000000002)
is mapped to -481, because `f - 2407` rounds to -2405, while `(f - 2407) / 5`
in exact arithmetic is above -481 and truncates to -480. -/
theorem frequencyToChannel_rounding :
    IsFloat64 (2000 + 1 / 2 ^ 42) ∧
      frequencyToChannel (2000 + 1 / 2 ^ 42) = -481 ∧
      ⌈(((2000 : ℚ) + 1 / 2 ^ 42) / 1000 - 2407) / 5⌉ = -480 := by
  have hrep : IsFloat64 (2000 + 1 / 2 ^ 42) := by
    have h := isFloat64_dyadic (2000 * 2 ^ 42 + 1) 42 (by norm_num) (by norm_num)
    have e : (((2000 * 2 ^ 42 + 1 : ℤ) : ℚ)) / 2 ^ 42 = 2000 + 1 / 2 ^ 42 := by
      push_cast
      field_simp
      norm_num
    rw [e] at h
    exact h
  have hf : roundFloat64 (((2000 : ℚ) + 1 / 2 ^ 42) / 1000) = 2 + 1 / 2 ^ 51 := by
    rw [roundFloat64_eq _ 1 (2 ^ 52 + 1) (by norm_num)
      (by rw [abs_of_pos (by norm_num)]; norm_num)
      (by rw [abs_of_pos (by norm_num)]; norm_num)
      (roundHalfEven_eq_of_near _ _ (by norm_num) (by norm_num))]
    norm_num
  have hs : roundFloat64 ((2 : ℚ) + 1 / 2 ^ 51 - 2407) = ((-2405 : ℤ) : ℚ) := by
    rw [roundFloat64_eq _ 11 (-2405 * 2 ^ 41) (by norm_num)
      (by rw [abs_of_neg (by norm_num)]; norm_num)
      (by rw [abs_of_neg (by norm_num)]; norm_num)
      (roundHalfEven_eq_of_near _ _ (by norm_num) (by norm_num))]
    norm_num
  have hq : roundFloat64 ((((-2405 : ℤ) : ℚ)) / 5) = ((-481 : ℤ) : ℚ) := by
    have e : (((-2405 : ℤ) : ℚ)) / 5 = ((-481 : ℤ) : ℚ) := by norm_num
    rw [e]
    exact roundFloat64_of_isFloat64 (isFloat64_intCast _ (by norm_num))
  refine ⟨hrep, ?_, by norm_num [Int.ceil_eq_iff]⟩
  have hrow := (frequencyToChannel_rows (2000 + 1 / 2 ^ 42) (2 + 1 / 2 ^ 51) hf.symm).2.2.1
    (by norm_num) (by norm_num) ((-481 : ℤ) : ℚ) (by rw [hs, hq])
  rw [hrow, if_neg (by norm_num), Int.ceil_intCast]

/-- C9 (as amended): the result is that of the first matching row of the
band table, quotients truncated toward zero.  On every input, with `f` the
float64 quotient `input / 1000` and each band quotient `q` computed in
float64: 0 if `f ≤ 0`; 14 if `f = 2484`; `q` truncated for `0 < f < 2484`,
for `4910 ≤ f ≤ 4980` and for the other `f ≤ 45000`; and the floor of `f` for
`45000 < f < 2^63`.  On an input that is a whole number `x` of kilohertz
below `2^52` in magnitude the same holds with `f = x / 1000` and the band
quotients in exact arithmetic, the truncation being the floor of a quotient
that is not negative and the ceiling of a negative one. -/
theorem frequencyToChannel_table (input f : ℚ) (hf : f = roundFloat64 (input / 1000)) :
    ((f ≤ 0 → frequencyToChannel input = 0) ∧
     (f = 2484 → frequencyToChannel input = 14) ∧
     (0 < f → f < 2484 → ∀ q, q = roundFloat64 (roundFloat64 (f - 2407) / 5) →
       frequencyToChannel input = if 0 ≤ q then ⌊q⌋ else ⌈q⌉) ∧
     (4910 ≤ f → f ≤ 4980 → ∀ q, q = roundFloat64 (roundFloat64 (f - 4000) / 5) →
       frequencyToChannel input = ⌊q⌋) ∧
     (2484 < f → f ≤ 45000 → ¬ (4910 ≤ f ∧ f ≤ 4980) →
       ∀ q, q = roundFloat64 (roundFloat64 (f - 5000) / 5) →
       frequencyToChannel input = if 0 ≤ q then ⌊q⌋ else ⌈q⌉) ∧
     (45000 < f → f < 2 ^ 63 → frequencyToChannel input = ⌊f⌋)) ∧
    (∀ x : ℤ, input = x → |x| < 2 ^ 52 →
      ((x : ℚ) / 1000 ≤ 0 → frequencyToChannel input = 0) ∧
      ((x : ℚ) / 1000 = 2484 → frequencyToChannel input = 14) ∧
      (0 < (x : ℚ) / 1000 → (x : ℚ) / 1000 < 2484 →
        frequencyToChannel input =
          if 2407 ≤ (x : ℚ) / 1000 then ⌊((x : ℚ) / 1000 - 2407) / 5⌋
          else ⌈((x : ℚ) / 1000 - 2407) / 5⌉) ∧
      (4910 ≤ (x : ℚ) / 1000 → (x : ℚ) / 1000 ≤ 4980 →
        frequencyToChannel input = ⌊((x : ℚ) / 1000 - 4000) / 5⌋) ∧
      (2484 < (x : ℚ) / 1000 → (x : ℚ) / 1000 ≤ 45000 →
        ¬ (4910 ≤ (x : ℚ) / 1000 ∧ (x : ℚ) / 1000 ≤ 4980) →
        frequencyToChannel input =
          if 5000 ≤ (x : ℚ) / 1000 then ⌊((x : ℚ) / 1000 - 5000) / 5⌋
          else ⌈((x : ℚ) / 1000 - 5000) / 5⌉) ∧
      (45000 < (x : ℚ) / 1000 → frequencyToChannel input = ⌊(x : ℚ) / 1000⌋)) := by
  refine ⟨frequencyToChannel_rows input f hf, fun x hx hb => ?_⟩
  rw [hx, frequencyToChannel_whole x hb]
  exact frequencyToChannelExact_rows (x : ℚ) (whole_div_lt x hb)

/-- Witness for C9 as amended: one whole input for each row of the table, with
a negative quotient in the third and the fifth (2403000 gives -0.8 and 0,
3001000 gives -399.8 and -399) and a fractional value in the last. -/
theorem frequencyToChannel_table_witness :
    frequencyToChannel (-5000) = 0 ∧ frequencyToChannel 2484000 = 14 ∧
      frequencyToChannel 2403000 = 0 ∧ frequencyToChannel 4921000 = 184 ∧
      frequencyToChannel 3001000 = -399 ∧ frequencyToChannel 60480500 = 60480 := by
  have h1 := ((frequencyToChannel_table (-5000) _ rfl).2 (-5000) (by norm_num)
    (by norm_num)).1 (by norm_num)
  have h2 := ((frequencyToChannel_table 2484000 _ rfl).2 2484000 (by norm_num)
    (by norm_num)).2.1 (by norm_num)
  have h3 := ((frequencyToChannel_table 2403000 _ rfl).2 2403000 (by norm_num)
    (by norm_num)).2.2.1 (by norm_num) (by norm_num)
  have h4 := ((frequencyToChannel_table 4921000 _ rfl).2 4921000 (by norm_num)
    (by norm_num)).2.2.2.1 (by norm_num) (by norm_num)
  have h5 := ((frequencyToChannel_table 3001000 _ rfl).2 3001000 (by norm_num)
    (by norm_num)).2.2.2.2.1 (by norm_num) (by norm_num) (by norm_num)
  have h6 := ((frequencyToChannel_table 60480500 _ rfl).2 60480500 (by norm_num)
    (by norm_num)).2.2.2.2.2 (by norm_num)
  norm_num [Int.ceil_neg] at h3
  norm_num [Int.floor_eq_iff] at h4
  norm_num [Int.ceil_neg] at h5
  norm_num [Int.floor_eq_iff] at h6
  exact ⟨h1, h2, h3, h4, h5, h6⟩

/-- C9 (as stated) fails: the input `10^22` is a float64 and `f = 10^19`
exceeds 45000, but the result is an `int`, below `2^63`, and so is not `f`
truncated, which is `10^19`. -/
theorem frequencyToChannel_1e22 :
    IsFloat64 (10 ^ 22) ∧ (45000 : ℚ) < 10 ^ 22 / 1000 ∧
      ⌊(10 ^ 22 : ℚ) / 1000⌋ = 10 ^ 19 ∧
      frequencyToChannel (10 ^ 22) < 2 ^ 63 ∧
      frequencyToChannel (10 ^ 22) ≠ ⌊(10 ^ 22 : ℚ) / 1000⌋ := by
  have hfl : ⌊(10 ^ 22 : ℚ) / 1000⌋ = 10 ^ 19 := by
    have e : (10 ^ 22 : ℚ) / 1000 = ((10 ^ 19 : ℤ) : ℚ) := by norm_num
    rw [e, Int.floor_intCast]
  have hlt := frequencyToChannel_lt (10 ^ 22)
  refine ⟨⟨5 ^ 22, 22, by norm_num, by norm_num, by norm_num, by norm_num⟩, by norm_num,
    hfl, hlt, ?_⟩
  rw [hfl]
  intro h
  rw [h] at hlt
  norm_num at hlt

/-- C10 (as amended): no value satisfies `f ≥ 58230` and `f ≤ 6480`, so the
60 GHz case is never taken: deleting it leaves the function unchanged on
every input, and every input whose float64 quotient `f = input / 1000`
satisfies `58230 ≤ f < 2^63` is returned as the floor of `f`, which is larger
than `(f - 56160) / 2160` truncated, in exact arithmetic and as the deleted
case would compute it in float64. -/
theorem frequencyToChannel_60GHz_dead (input f : ℚ) (hf : f = roundFloat64 (input / 1000)) :
    (∀ g : ℚ, ¬ (g ≥ 58230 ∧ g ≤ 6480)) ∧
    frequencyToChannel input = frequencyToChannelWithout60GHz input ∧
    (58230 ≤ f → f < 2 ^ 63 →
      frequencyToChannel input = ⌊f⌋ ∧
      ⌊(f - 56160) / 2160⌋ < ⌊f⌋ ∧
      truncToInt (roundFloat64 (roundFloat64 (f - 56160) / 2160)) < ⌊f⌋) := by
  have hdead : ∀ g : ℚ, ¬ (g ≥ 58230 ∧ g ≤ 6480) := by
    rintro g ⟨h, h2⟩
    linarith
  refine ⟨hdead, ?_, fun h hb => ?_⟩
  · unfold frequencyToChannel frequencyToChannelWithout60GHz
    simp only []
    rw [if_neg (hdead _)]
  · have hval := (frequencyToChannel_rows input f hf).2.2.2.2.2 (by linarith) hb
    have hfl : f - 1 < (⌊f⌋ : ℚ) := by
      have := Int.lt_floor_add_one f
      linarith
    refine ⟨hval, ?_, ?_⟩
    · have h1 : (⌊(f - 56160) / 2160⌋ : ℚ) ≤ (f - 56160) / 2160 := Int.floor_le _
      have h2 : (f - 56160) / 2160 ≤ f - 1 := by
        rw [div_le_iff₀ (by norm_num)]
        linarith
      have : (⌊(f - 56160) / 2160⌋ : ℚ) < (⌊f⌋ : ℚ) := by linarith
      exact_mod_cast this
    · have hsmall : (2 : ℚ) ^ (-1022 : ℤ) ≤ 1 / 2 := by
        have : (2 : ℚ) ^ (-1022 : ℤ) ≤ 2 ^ (-1 : ℤ) :=
          zpow_le_zpow_right₀ (by norm_num) (by norm_num)
        simpa using this
      have ha0 : (2070 : ℚ) ≤ roundFloat64 (f - 56160) := by
        have := le_roundFloat64 (isFloat64_intCast 2070 (by norm_num))
          (show ((2070 : ℤ) : ℚ) ≤ f - 56160 by push_cast; linarith)
        exact_mod_cast this
      have ha1 := roundFloat64_le_add (f - 56160) (le_trans hsmall (by linarith))
      have hq0 : (2 : ℚ) ^ (-1022 : ℤ) ≤ roundFloat64 (f - 56160) / 2160 := by
        refine le_trans hsmall ?_
        rw [le_div_iff₀ (by norm_num)]
        linarith
      have hb1 := roundFloat64_le_add (roundFloat64 (f - 56160) / 2160) hq0
      have hb0 : (0 : ℚ) ≤ roundFloat64 (roundFloat64 (f - 56160) / 2160) := by
        have := le_roundFloat64 (isFloat64_intCast 0 (by norm_num))
          (show ((0 : ℤ) : ℚ) ≤ roundFloat64 (f - 56160) / 2160 by
            push_cast
            apply div_nonneg <;> linarith)
        exact_mod_cast this
      have ha2 : roundFloat64 (f - 56160) ≤ 2 * (f - 56160) := by
        have : (f - 56160) / 2 ^ 53 ≤ f - 56160 := by
          rw [div_le_iff₀ (by norm_num)]
          nlinarith
        linarith
      have hb2 : roundFloat64 (roundFloat64 (f - 56160) / 2160) ≤
          2 * (roundFloat64 (f - 56160) / 2160) := by
        have : roundFloat64 (f - 56160) / 2160 / 2 ^ 53 ≤ roundFloat64 (f - 56160) / 2160 := by
          rw [div_le_iff₀ (by norm_num)]
          have : (0 : ℚ) ≤ roundFloat64 (f - 56160) / 2160 := by
            apply div_nonneg <;> linarith
          nlinarith
        linarith
      have hb3 : roundFloat64 (roundFloat64 (f - 56160) / 2160) ≤ f - 1 := by
        have : 2 * (roundFloat64 (f - 56160) / 2160) ≤ f - 1 := by
          rw [mul_div_assoc', div_le_iff₀ (by norm_num)]
          linarith
        linarith
      rw [truncToInt_of_abs_lt _ (by rw [abs_lt]; constructor <;> linarith), if_pos hb0]
      have h1 : (⌊roundFloat64 (roundFloat64 (f - 56160) / 2160)⌋ : ℚ) ≤
          roundFloat64 (roundFloat64 (f - 56160) / 2160) := Int.floor_le _
      have : (⌊roundFloat64 (roundFloat64 (f - 56160) / 2160)⌋ : ℚ) < (⌊f⌋ : ℚ) := by
        linarith
      exact_mod_cast this

/-- Witness for C10 as amended: the input 58320000 is returned as 58320,
while the deleted case would give 1. -/
theorem frequencyToChannel_60GHz_dead_witness :
    frequencyToChannel 58320000 = 58320 ∧
      frequencyToChannelWithout60GHz 58320000 = 58320 ∧
      truncToInt (roundFloat64 (roundFloat64 (58320 - 56160) / 2160)) = 1 := by
  have hf : (58320 : ℚ) = roundFloat64 (58320000 / 1000) := by
    have e : (58320000 : ℚ) / 1000 = ((58320 : ℤ) : ℚ) := by norm_num
    rw [e, roundFloat64_of_isFloat64 (isFloat64_intCast _ (by norm_num))]
    norm_num
  have h := frequencyToChannel_60GHz_dead 58320000 58320 hf
  have hval : frequencyToChannel 58320000 = 58320 := by
    have h1 := (h.2.2 (by norm_num) (by norm_num)).1
    have e : ⌊(58320 : ℚ)⌋ = 58320 := by
      have : (58320 : ℚ) = ((58320 : ℤ) : ℚ) := by norm_num
      rw [this, Int.floor_intCast]
    rw [e] at h1
    exact h1
  refine ⟨hval, ?_, ?_⟩
  · rw [← h.2.1]
    exact hval
  · have e1 : (58320 : ℚ) - 56160 = ((2160 : ℤ) : ℚ) := by norm_num
    have e2 : (((2160 : ℤ) : ℚ)) / 2160 = ((1 : ℤ) : ℚ) := by norm_num
    rw [e1, roundFloat64_of_isFloat64 (isFloat64_intCast _ (by norm_num)), e2,
      roundFloat64_of_isFloat64 (isFloat64_intCast _ (by norm_num)),
      truncToInt_intCast _ (by norm_num)]

/-- C10 (as stated) fails: the input `2^63 * 1000` is a float64 with
`f = 2^63 ≥ 58230`, but the result is an `int`, below `2^63`, and so is not
`f` truncated. -/
theorem frequencyToChannel_two_pow_63 :
    IsFloat64 (2 ^ 63 * 1000) ∧ (58230 : ℚ) ≤ 2 ^ 63 * 1000 / 1000 ∧
      ⌊(2 ^ 63 * 1000 : ℚ) / 1000⌋ = 2 ^ 63 ∧
      frequencyToChannel (2 ^ 63 * 1000) < 2 ^ 63 ∧
      frequencyToChannel (2 ^ 63 * 1000) ≠ ⌊(2 ^ 63 * 1000 : ℚ) / 1000⌋ := by
  have hfl : ⌊(2 ^ 63 * 1000 : ℚ) / 1000⌋ = 2 ^ 63 := by
    have e : (2 ^ 63 * 1000 : ℚ) / 1000 = ((2 ^ 63 : ℤ) : ℚ) := by norm_num
    rw [e, Int.floor_intCast]
  have hlt := frequencyToChannel_lt (2 ^ 63 * 1000)
  refine ⟨⟨125, 66, by norm_num, by norm_num, by norm_num, by norm_num⟩, by norm_num,
    hfl, hlt, ?_⟩
  rw [hfl]
  intro h
  rw [h] at hlt
  exact lt_irrefl _ hlt

/-! ## End to end -/

theorem frequencyToChannel_2412000 : frequencyToChannel 2412000 = 1 := by
  have hcast : (2412000 : ℚ) = ((2412000 : ℤ) : ℚ) := by norm_num
  rw [hcast, frequencyToChannel_whole _ (by norm_num)]
  norm_num [frequencyToChannelExact, truncToInt]

theorem SprintFloat_intCast (g : ℚ → String) (z : ℤ) (h : z.natAbs < 10 ^ 6) :
    SprintFloat g (z : ℚ) = SprintInt z := by
  unfold SprintFloat
  rw [if_pos]
  · rw [Rat.num_intCast]
  · exact ⟨Rat.den_intCast z, by rw [Rat.num_intCast]; exact h⟩

/-- The record built for the packet of the end-to-end example. -/
theorem record_home (g : ℚ → String) (label : String) :
    packets.record g
      { tsSec := 1700000000, sourceMac := "AA:BB:CC:DD:EE:FF", phyName := "IEEE802.11",
        lat := 1, lon := 2, signal := -50, frequency := 2412000, alt := 10 }
      ⟨"Home", 1700000000, label⟩ =
    ["AA:BB:CC:DD:EE:FF", "Home", label, "2023-11-14 22:13:20", "1", "-50", "1", "2",
      "10", "0", "WIFI"] := by
  have h1 : SprintFloat g 1 = "1" := by
    have h := SprintFloat_intCast g 1 (by decide)
    rw [Int.cast_one] at h
    rw [h]
    decide
  have h2 : SprintFloat g 2 = "2" := by
    have h := SprintFloat_intCast g 2 (by decide)
    rw [Int.cast_ofNat] at h
    rw [h]
    decide
  have h10 : SprintFloat g 10 = "10" := by
    have h := SprintFloat_intCast g 10 (by decide)
    rw [Int.cast_ofNat] at h
    rw [h]
    decide
  have ht : formatUTC 1700000000 = "2023-11-14 22:13:20" := by decide
  have hc : SprintInt 1 = "1" := by decide
  have hs : SprintInt (-50) = "-50" := by decide
  simp only [packets.record, frequencyToChannel_2412000, h1, h2, h10, ht, hc, hs]

/-- What `packets` writes for the end-to-end example, given what the map
holds for the packet's source. -/
theorem packets_home (g : ℚ → String) (crypt label : String) (m : DeviceMap)
    (h : m "AA:BB:CC:DD:EE:FF" = some ⟨"Home", 1700000000, label⟩) :
    packets g (homeDB crypt) m [] =
      ([["AA:BB:CC:DD:EE:FF", "Home", label, "2023-11-14 22:13:20", "1", "-50", "1", "2",
        "10", "0", "WIFI"]], none) := by
  simp only [packets, homeDB, packets.loop, h, record_home, List.nil_append]

/-- C1 (as amended): for the device record and the packet of the end-to-end
example, `accessPoints` followed by `packets` reports no error and writes
exactly one record.  With the bitmask `CryptPSK|CryptVersionWPA2|CryptAES_CCM`
(268436096) its third field is `[ESS]`; with the `CryptWPA` bit set as well
(268436160) the record is
`AA:BB:CC:DD:EE:FF,Home,[WPA2-PSK-CCMP][ESS],2023-11-14 22:13:20,1,-50,1,2,10,0,WIFI`. -/
theorem endToEnd_home (g : ℚ → String) :
    CryptPSK ||| CryptVersionWPA2 ||| CryptAES_CCM = 268436096 ∧
    CryptWPA ||| CryptPSK ||| CryptVersionWPA2 ||| CryptAES_CCM = 268436160 ∧
    (accessPoints (homeDB "268436096")).2 = none ∧
    packets g (homeDB "268436096") (accessPoints (homeDB "268436096")).1 [] =
      ([["AA:BB:CC:DD:EE:FF", "Home", "[ESS]", "2023-11-14 22:13:20", "1", "-50", "1",
        "2", "10", "0", "WIFI"]], none) ∧
    (accessPoints (homeDB "268436160")).2 = none ∧
    packets g (homeDB "268436160") (accessPoints (homeDB "268436160")).1 [] =
      ([["AA:BB:CC:DD:EE:FF", "Home", "[WPA2-PSK-CCMP][ESS]", "2023-11-14 22:13:20", "1",
        "-50", "1", "2", "10", "0", "WIFI"]], none) := by
  have hA : (accessPoints (homeDB "268436096")).1 "AA:BB:CC:DD:EE:FF" =
      some ⟨"Home", 1700000000, "[ESS]"⟩ := by rfl
  have hB : (accessPoints (homeDB "268436160")).1 "AA:BB:CC:DD:EE:FF" =
      some ⟨"Home", 1700000000, "[WPA2-PSK-CCMP][ESS]"⟩ := by rfl
  exact ⟨by decide, by decide, rfl, packets_home g _ _ _ hA, rfl, packets_home g _ _ _ hB⟩

/-- C1 (as stated) fails: with the bitmask `CryptPSK|CryptVersionWPA2|CryptAES_CCM`
the one record written is not the one the claim gives; its third field is
`[ESS]`. -/
theorem endToEnd_home_as_stated :
    CryptPSK ||| CryptVersionWPA2 ||| CryptAES_CCM = 268436096 ∧
    (packets (fun _ => "") (homeDB "268436096") (accessPoints (homeDB "268436096")).1 []).1 ≠
      [["AA:BB:CC:DD:EE:FF", "Home", "[WPA2-PSK-CCMP][ESS]", "2023-11-14 22:13:20", "1",
        "-50", "1", "2", "10", "0", "WIFI"]] := by
  have hA : (accessPoints (homeDB "268436096")).1 "AA:BB:CC:DD:EE:FF" =
      some ⟨"Home", 1700000000, "[ESS]"⟩ := by rfl
  refine ⟨by decide, ?_⟩
  rw [packets_home _ _ _ _ hA]
  decide

/-! ## The device resolver -/

/-- C11 (the code at the failing input): a blob that carries the name `Beacon`
under the key `dot11.device.last_beaconed_ssid` and an advertised list headed
by `Home` decodes with `LastBeaconedSSID` left empty, and the SSID resolved
is `Home`; the name `Beacon` is resolved only when it is written under the Go
field name `LastBeaconedSSID`. -/
theorem accessPoints_last_beaconed_key :
    keyMatches "dot11.device.last_beaconed_ssid" "LastBeaconedSSID" = false ∧
    (Unmarshal (.ok (beaconBlob "dot11.device.last_beaconed_ssid"))).toOption.map
      (fun dev => dev.Device.LastBeaconedSSID) = some "" ∧
    (accessPoints (beaconDB "dot11.device.last_beaconed_ssid")).1 "AA:BB:CC:DD:EE:FF" =
      some ⟨"Home", 1700000000, "[ESS]"⟩ ∧
    (accessPoints (beaconDB "LastBeaconedSSID")).1 "AA:BB:CC:DD:EE:FF" =
      some ⟨"Beacon", 1700000000, "[ESS]"⟩ := by
  refine ⟨by decide, ?_, ?_, ?_⟩ <;> rfl

/-- The chain of main.go:140-153, case by case: the last-beaconed name when it
is non-empty (with bitmask zero), else the last-beaconed record when its name
is non-empty, else the first advertised entry when the advertised list has
one, else the first responded entry when the responded list has one, else the
empty name with bitmask zero. -/
theorem choose_cases (lb : String) (r : SSIDEntry) (adv resp : List SSIDEntry) :
    accessPoints.choose ⟨⟨lb, r, adv, resp⟩⟩ =
      if lb ≠ "" then (lb, 0)
      else if r.SSId ≠ "" then (r.SSId, r.CryptSet)
      else match adv, resp with
        | a :: _, _ => (a.SSId, a.CryptSet)
        | [], b :: _ => (b.SSId, b.CryptSet)
        | [], [] => ("", 0) := by
  unfold accessPoints.choose
  cases adv <;> cases resp <;> simp

/-- C12 (as amended): the name and bitmask selected are those of the first
source that is present, a name being present when it is non-empty and a list
when it has an element: the last-beaconed name (with bitmask zero), else the
last-beaconed record, else the first advertised entry, else the first
responded entry, else the empty name and zero. -/
theorem choose_first_present (dev : Dev) :
    (dev.Device.LastBeaconedSSID ≠ "" →
      accessPoints.choose dev = (dev.Device.LastBeaconedSSID, 0)) ∧
    (dev.Device.LastBeaconedSSID = "" → dev.Device.LastBeaconedSSIDRecord.SSId ≠ "" →
      accessPoints.choose dev =
        (dev.Device.LastBeaconedSSIDRecord.SSId, dev.Device.LastBeaconedSSIDRecord.CryptSet)) ∧
    (dev.Device.LastBeaconedSSID = "" → dev.Device.LastBeaconedSSIDRecord.SSId = "" →
      ∀ a rest, dev.Device.AdvertisedSSIDMap = a :: rest →
        accessPoints.choose dev = (a.SSId, a.CryptSet)) ∧
    (dev.Device.LastBeaconedSSID = "" → dev.Device.LastBeaconedSSIDRecord.SSId = "" →
      dev.Device.AdvertisedSSIDMap = [] →
      ∀ b rest, dev.Device.RespondedSSIDMap = b :: rest →
        accessPoints.choose dev = (b.SSId, b.CryptSet)) ∧
    (dev.Device.LastBeaconedSSID = "" → dev.Device.LastBeaconedSSIDRecord.SSId = "" →
      dev.Device.AdvertisedSSIDMap = [] → dev.Device.RespondedSSIDMap = [] →
      accessPoints.choose dev = ("", 0)) := by
  obtain ⟨⟨lb, r, adv, resp⟩⟩ := dev
  simp only [choose_cases]
  refine ⟨fun h => ?_, fun h1 h2 => ?_, fun h1 h2 a rest h3 => ?_,
    fun h1 h2 h3 b rest h4 => ?_, fun h1 h2 h3 h4 => ?_⟩
  · rw [if_pos h]
  · rw [if_neg (not_not.mpr h1), if_pos h2]
  · rw [if_neg (not_not.mpr h1), if_neg (not_not.mpr h2), h3]
  · rw [if_neg (not_not.mpr h1), if_neg (not_not.mpr h2), h3, h4]
  · rw [if_neg (not_not.mpr h1), if_neg (not_not.mpr h2), h3, h4]

/-- Witness for C12 as amended: a record with all four sources filled resolves
to the last-beaconed name, and `hiddenDev` to its first advertised entry. -/
theorem choose_first_present_witness :
    accessPoints.choose ⟨⟨"Beacon", ⟨"Record", 2⟩, [⟨"Home", 64⟩], [⟨"Guest", 0⟩]⟩⟩ =
        ("Beacon", 0) ∧
      accessPoints.choose hiddenDev = ("", CryptWEP) :=
  ⟨(choose_first_present _).1 (by decide),
    (choose_first_present hiddenDev).2.2.1 rfl rfl _ _ rfl⟩

/-- The blob `hiddenBlob` parses, and to `hiddenDev`. -/
theorem Unmarshal_hiddenBlob : Unmarshal (.ok hiddenBlob) = .ok hiddenDev := rfl

/-- C12 (as stated) fails: `hiddenDev`, the parse of `hiddenBlob`, has a
non-empty advertised list whose first entry has an empty name, and a first
responded entry named `Guest`; the advertised entry is selected, not the
responded one. -/
theorem choose_hiddenDev :
    Unmarshal (.ok hiddenBlob) = .ok hiddenDev ∧
      hiddenDev.Device.LastBeaconedSSID = "" ∧
      hiddenDev.Device.LastBeaconedSSIDRecord.SSId = "" ∧
      hiddenDev.Device.AdvertisedSSIDMap.head? = some ⟨"", CryptWEP⟩ ∧
      hiddenDev.Device.RespondedSSIDMap.head? = some ⟨"Guest", CryptWPA ||| CryptPSK⟩ ∧
      accessPoints.choose hiddenDev = ("", CryptWEP) ∧
      accessPoints.choose hiddenDev ≠ ("Guest", CryptWPA ||| CryptPSK) :=
  ⟨Unmarshal_hiddenBlob, by decide⟩

/-- C13 (as amended): when the resolved name is empty, both last-beaconed
names are empty; if moreover both lists are empty the bitmask is zero and the
`DeviceInfo` has SSId `""` and Crypto `[ESS]`; otherwise the empty name is
that of the first advertised entry, or with no advertised entry that of the
first responded entry, and Crypto is the label of that entry's bitmask. -/
theorem info_empty_name (firstSeen : Int) (dev : Dev)
    (h : (accessPoints.info firstSeen dev).SSId = "") :
    dev.Device.LastBeaconedSSID = "" ∧ dev.Device.LastBeaconedSSIDRecord.SSId = "" ∧
    (dev.Device.AdvertisedSSIDMap = [] → dev.Device.RespondedSSIDMap = [] →
      accessPoints.choose dev = ("", 0) ∧
      accessPoints.info firstSeen dev = ⟨"", firstSeen, "[ESS]"⟩) ∧
    (∀ a rest, dev.Device.AdvertisedSSIDMap = a :: rest →
      a.SSId = "" ∧ accessPoints.info firstSeen dev = ⟨"", firstSeen, Crypt.String a.CryptSet⟩) ∧
    (dev.Device.AdvertisedSSIDMap = [] → ∀ b rest, dev.Device.RespondedSSIDMap = b :: rest →
      b.SSId = "" ∧
        accessPoints.info firstSeen dev = ⟨"", firstSeen, Crypt.String b.CryptSet⟩) := by
  obtain ⟨⟨lb, r, adv, resp⟩⟩ := dev
  simp only [accessPoints.info, choose_cases] at h ⊢
  by_cases h1 : lb = ""
  · by_cases h2 : r.SSId = ""
    · rw [if_neg (not_not.mpr h1), if_neg (not_not.mpr h2)] at h ⊢
      refine ⟨h1, h2, fun h3 h4 => ?_, fun a rest h3 => ?_, fun h3 b rest h4 => ?_⟩
      · subst h3 h4
        exact ⟨rfl, by simp only []; congr 1⟩
      · subst h3
        simp only [] at h ⊢
        exact ⟨h, by rw [h]⟩
      · subst h3 h4
        simp only [] at h ⊢
        exact ⟨h, by rw [h]⟩
    · rw [if_neg (not_not.mpr h1), if_pos h2] at h
      exact absurd h h2
  · rw [if_pos h1] at h
    exact absurd h h1

/-- Witness for C13 as amended: the record with no source present. -/
theorem info_empty_name_witness :
    accessPoints.choose Dev.zero = ("", 0) ∧
      accessPoints.info 1700000000 Dev.zero = ⟨"", 1700000000, "[ESS]"⟩ :=
  (info_empty_name 1700000000 Dev.zero rfl).2.2.1 rfl rfl

/-- C13 (as stated) fails: `hiddenDev`, the parse of `hiddenBlob`, resolves the
empty name, yet the bitmask used is `CryptWEP`, not zero, and the Crypto of
its `DeviceInfo` is `[WEP][ESS]`. -/
theorem info_hiddenDev :
    Unmarshal (.ok hiddenBlob) = .ok hiddenDev ∧
      (accessPoints.info 1700000000 hiddenDev).SSId = "" ∧
      (accessPoints.choose hiddenDev).2 = CryptWEP ∧
      (accessPoints.choose hiddenDev).2 ≠ 0 ∧
      accessPoints.info 1700000000 hiddenDev = ⟨"", 1700000000, "[WEP][ESS]"⟩ ∧
      (accessPoints.info 1700000000 hiddenDev).Crypto ≠ "[ESS]" :=
  ⟨Unmarshal_hiddenBlob, by decide⟩

/-! ## The mapping built by the resolver -/

theorem DeviceMap.insert_same (m : DeviceMap) (k : String) (v : DeviceInfo) :
    m.insert k v k = some v := by
  simp [DeviceMap.insert]

theorem DeviceMap.insert_other (m : DeviceMap) (k x : String) (v : DeviceInfo)
    (h : x ≠ k) : m.insert k v x = m x := by
  simp [DeviceMap.insert, h]

/-- One turn of the loop on a row that scans and parses. -/
theorem accessPoints.loop_cons_ok (m : DeviceMap) (row : DeviceRow) (dev : Dev)
    (rest : List (Except Error DeviceRow)) (h : Unmarshal row.device = .ok dev) :
    accessPoints.loop m (.ok row :: rest) =
      accessPoints.loop (m.insert row.devMac (accessPoints.info row.firstSeen dev)) rest := by
  rw [accessPoints.loop, h]

/-- Rows that all scan and parse give no error. -/
theorem accessPoints.loop_no_error (rows : List DeviceRow)
    (hparse : ∀ r ∈ rows, ∃ dev, Unmarshal r.device = .ok dev) (m : DeviceMap) :
    (accessPoints.loop m (rows.map .ok)).2 = none := by
  induction rows generalizing m with
  | nil => rfl
  | cons r rest ih =>
    obtain ⟨dev, hdev⟩ := hparse r (List.mem_cons_self _ _)
    rw [List.map_cons, accessPoints.loop_cons_ok m r dev _ hdev]
    exact ih (fun x hx => hparse x (List.mem_cons_of_mem _ hx)) _

/-- Rows that all scan and parse leave alone a key none of them carries. -/
theorem accessPoints.loop_absent (rows : List DeviceRow)
    (hparse : ∀ r ∈ rows, ∃ dev, Unmarshal r.device = .ok dev) (k : String)
    (habs : ∀ r ∈ rows, r.devMac ≠ k) (m : DeviceMap) :
    (accessPoints.loop m (rows.map .ok)).1 k = m k := by
  induction rows generalizing m with
  | nil => rfl
  | cons r rest ih =>
    obtain ⟨dev, hdev⟩ := hparse r (List.mem_cons_self _ _)
    rw [List.map_cons, accessPoints.loop_cons_ok m r dev _ hdev,
      ih (fun x hx => hparse x (List.mem_cons_of_mem _ hx))
        (fun x hx => habs x (List.mem_cons_of_mem _ hx))]
    exact DeviceMap.insert_other _ _ _ _ (Ne.symm (habs r (List.mem_cons_self _ _)))

/-- The entry of a key is built from the last row that carries it. -/
theorem accessPoints.loop_last (pre post : List DeviceRow) (r : DeviceRow) (dev : Dev)
    (hparse : ∀ x ∈ pre ++ r :: post, ∃ d, Unmarshal x.device = .ok d)
    (hdev : Unmarshal r.device = .ok dev) (hlast : ∀ x ∈ post, x.devMac ≠ r.devMac)
    (m : DeviceMap) :
    (accessPoints.loop m ((pre ++ r :: post).map .ok)).1 r.devMac =
      some (accessPoints.info r.firstSeen dev) := by
  induction pre generalizing m with
  | nil =>
    rw [List.nil_append, List.map_cons, accessPoints.loop_cons_ok m r dev _ hdev,
      accessPoints.loop_absent post
        (fun x hx => hparse x (by simp [hx])) _ hlast]
    exact DeviceMap.insert_same _ _ _
  | cons p pre ih =>
    obtain ⟨d, hd⟩ := hparse p (by simp)
    rw [List.cons_append, List.map_cons, accessPoints.loop_cons_ok m p d _ hd]
    exact ih (fun x hx => hparse x (by
      rw [List.cons_append]
      exact List.mem_cons_of_mem _ hx)) _

/-- A list with an element satisfying `p` splits at the last such element. -/
theorem exists_last_split {α : Type} (p : α → Prop) (l : List α) (h : ∃ x ∈ l, p x) :
    ∃ pre x post, l = pre ++ x :: post ∧ p x ∧ ∀ y ∈ post, ¬ p y := by
  induction l with
  | nil =>
    obtain ⟨x, hx, _⟩ := h
    exact absurd hx (List.not_mem_nil x)
  | cons a t ih =>
    by_cases ht : ∃ x ∈ t, p x
    · obtain ⟨pre, x, post, hsplit, hx, hpost⟩ := ih ht
      exact ⟨a :: pre, x, post, by rw [hsplit, List.cons_append], hx, hpost⟩
    · obtain ⟨x, hx, hpx⟩ := h
      rcases List.mem_cons.mp hx with rfl | hxt
      · exact ⟨[], x, t, rfl, hpx, fun y hy hpy => ht ⟨y, hy, hpy⟩⟩
      · exact absurd ⟨x, hxt, hpx⟩ ht

/-- C14: when every device row scans and parses, `accessPoints` returns no
error and a mapping whose keys are exactly the identifiers of the rows, the
entry of each identifier being the `DeviceInfo` built from the last row that
carries it. -/
theorem accessPoints_last_write_wins (rows : List DeviceRow)
    (pq : Except Error (List (Except Error PacketRow)))
    (hparse : ∀ r ∈ rows, ∃ dev, Unmarshal r.device = .ok dev) :
    (accessPoints ⟨.ok (rows.map .ok), pq⟩).2 = none ∧
    (∀ k, ((accessPoints ⟨.ok (rows.map .ok), pq⟩).1 k).isSome ↔ ∃ r ∈ rows, r.devMac = k) ∧
    (∀ pre r post dev, rows = pre ++ r :: post → Unmarshal r.device = .ok dev →
      (∀ x ∈ post, x.devMac ≠ r.devMac) →
      (accessPoints ⟨.ok (rows.map .ok), pq⟩).1 r.devMac =
        some (accessPoints.info r.firstSeen dev)) := by
  have hlast : ∀ pre r post dev, rows = pre ++ r :: post → Unmarshal r.device = .ok dev →
      (∀ x ∈ post, x.devMac ≠ r.devMac) →
      (accessPoints ⟨.ok (rows.map .ok), pq⟩).1 r.devMac =
        some (accessPoints.info r.firstSeen dev) := by
    intro pre r post dev hsplit hdev hpost
    subst hsplit
    exact accessPoints.loop_last pre post r dev hparse hdev hpost _
  refine ⟨accessPoints.loop_no_error rows hparse _, fun k => ⟨fun hsome => ?_, fun hex => ?_⟩,
    hlast⟩
  · by_contra hno
    have habs : ∀ r ∈ rows, r.devMac ≠ k := fun r hr hk => hno ⟨r, hr, hk⟩
    have hk : (accessPoints ⟨.ok (rows.map .ok), pq⟩).1 k = none :=
      accessPoints.loop_absent rows hparse k habs _
    rw [hk] at hsome
    exact absurd hsome (by decide)
  · obtain ⟨pre, r, post, hsplit, hr, hpost⟩ :=
      exists_last_split (fun x : DeviceRow => x.devMac = k) rows hex
    obtain ⟨dev, hdev⟩ := hparse r (by rw [hsplit]; simp)
    have := hlast pre r post dev hsplit hdev (fun x hx hxk => hpost x hx (hxk.trans hr))
    rw [← hr, this]
    rfl

theorem dupRows_parse : ∀ r ∈ dupRows, ∃ dev, Unmarshal r.device = .ok dev := by
  intro r hr
  simp only [dupRows, List.mem_cons, List.mem_singleton, List.not_mem_nil, or_false] at hr
  rcases hr with rfl | rfl | rfl <;> exact ⟨_, rfl⟩

/-- Witness for C14: of the three rows of `dupRows` the first and the third
carry the same identifier, and its entry is the one built from the third. -/
theorem accessPoints_last_write_wins_witness :
    (accessPoints ⟨.ok (dupRows.map .ok), .ok []⟩).2 = none ∧
      (accessPoints ⟨.ok (dupRows.map .ok), .ok []⟩).1 "AA:BB:CC:DD:EE:FF" =
        some ⟨"", 3, "[WEP][ESS]"⟩ :=
  ⟨(accessPoints_last_write_wins dupRows (.ok []) dupRows_parse).1,
    (accessPoints_last_write_wins dupRows (.ok []) dupRows_parse).2.2
      [_, _] ⟨"AA:BB:CC:DD:EE:FF", 3, 1, 2, .ok hiddenBlob⟩ [] hiddenDev rfl rfl
      (fun _ h => absurd h (List.not_mem_nil _))⟩

/-! ## The row builder -/

/-- One turn of the packet loop on a row whose source is a key of the map. -/
theorem packets.loop_cons_some (g : ℚ → String) (m : DeviceMap) (w : CsvWriter)
    (row : PacketRow) (dev : DeviceInfo) (rest : List (Except Error PacketRow))
    (h : m row.sourceMac = some dev) :
    packets.loop g m w (.ok row :: rest) =
      packets.loop g m (w ++ [packets.record g row dev]) rest := by
  rw [packets.loop, h]

/-- One turn of the packet loop on a row whose source is not a key. -/
theorem packets.loop_cons_none (g : ℚ → String) (m : DeviceMap) (w : CsvWriter)
    (row : PacketRow) (rest : List (Except Error PacketRow))
    (h : m row.sourceMac = none) :
    packets.loop g m w (.ok row :: rest) = packets.loop g m w rest := by
  rw [packets.loop, h]

/-! ### The calendar and the decimal numerals -/

/-- The year of the era from the decomposition of the day of the era into
centuries `c`, four-year cycles `q`, years `k` and the day `r` of the cycle. -/
theorem yoe_eq (c q r k g doe : ℕ) (hc : c ≤ 3) (hq : q ≤ 24) (hr : r ≤ 1460)
    (hdoe : doe = 36524 * c + 1461 * q + r) (hcent : 1461 * q + r < 36524)
    (hk : 365 * k ≤ r) (hk3 : k ≤ 3) (hk' : r < 365 * (k + 1) ∨ k = 3)
    (hg1 : 1460 * g ≤ doe) (hg2 : doe < 1460 * g + 1460) :
    365 * (100 * c + 4 * q + k) ≤ doe - g + c ∧ doe - g + c < 365 * (100 * c + 4 * q + k + 1) := by
  omega

/-- The year of the era in its decomposition into centuries, four-year
cycles and years: the day of the era is the first day of that year plus a day
of the year, which is 365 only when the civil year that ends this
March-based year is a leap year. -/
theorem yearOfEra_decomp (doe : ℕ) (h : doe < 146097) :
    ∃ c q k doy : ℕ, c ≤ 3 ∧ q ≤ 24 ∧ k ≤ 3 ∧
      (doe - doe / 1460 + doe / 36524 - doe / 146096) / 365 = 100 * c + 4 * q + k ∧
      365 * (100 * c + 4 * q + k) + (100 * c + 4 * q + k) / 4 - (100 * c + 4 * q + k) / 100 =
        36524 * c + 1461 * q + 365 * k ∧
      doe = 36524 * c + 1461 * q + 365 * k + doy ∧ doy ≤ 365 ∧
      (doy = 365 → k = 3 ∧ (q ≠ 24 ∨ c = 3)) := by
  by_cases hlast : doe = 146096
  · subst hlast
    exact ⟨3, 24, 3, 365, by norm_num, by norm_num, by norm_num, by norm_num, by norm_num,
      by norm_num, by norm_num, fun _ => ⟨rfl, Or.inr rfl⟩⟩
  · have hlt : doe < 146096 := by omega
    obtain ⟨c, q, r, k, hc, hq, hr, hdoe, hcent, hk, hk3, hk'⟩ :
        ∃ c q r k : ℕ, c ≤ 3 ∧ q ≤ 24 ∧ r ≤ 1460 ∧ doe = 36524 * c + 1461 * q + r ∧
          1461 * q + r < 36524 ∧ 365 * k ≤ r ∧ k ≤ 3 ∧ (r < 365 * (k + 1) ∨ k = 3) :=
      ⟨doe / 36524, doe % 36524 / 1461, doe % 36524 % 1461, min (doe % 36524 % 1461 / 365) 3,
        by omega, by omega, by omega, by omega, by omega, by omega, by omega, by omega⟩
    have hy := yoe_eq c q r k (doe / 1460) doe hc hq hr hdoe hcent hk hk3 hk' (by omega) (by omega)
    have he : doe / 146096 = 0 := by omega
    have hcc : doe / 36524 = c := by omega
    have h4 : (100 * c + 4 * q + k) / 4 = 25 * c + q := by omega
    have h100 : (100 * c + 4 * q + k) / 100 = c := by omega
    refine ⟨c, q, k, r - 365 * k, hc, hq, hk3, ?_, ?_, by omega, by omega, ?_⟩
    · rw [he, hcc]
      omega
    · rw [h4, h100]
      omega
    · intro h365
      constructor
      · omega
      · by_contra hcon
        push_neg at hcon
        omega

/-- The number of days to 1 January of the civil year that begins in the
March-based year `100 c + 4 q + k` of the era. -/
theorem daysBeforeYear_decomp (era : ℤ) (c q k : ℕ) (hc : c ≤ 3) (hq : q ≤ 24) (hk : k ≤ 3) :
    daysBeforeYear (400 * era + (100 * c + 4 * q + k : ℕ) + 1) =
      146097 * era + (36524 * c + 1461 * q + 365 * k : ℕ) + 306 - 719468 := by
  unfold daysBeforeYear
  have h4 : (400 * era + ((100 * c + 4 * q + k : ℕ) : ℤ) + 1 - 1) / 4 =
      100 * era + 25 * c + q := by omega
  have h100 : (400 * era + ((100 * c + 4 * q + k : ℕ) : ℤ) + 1 - 1) / 100 =
      4 * era + c := by omega
  have h400 : (400 * era + ((100 * c + 4 * q + k : ℕ) : ℤ) + 1 - 1) / 400 = era := by omega
  rw [h4, h100, h400]
  push_cast
  ring

/-- From one 1 January to the next there are 365 days, and 366 in a leap
year. -/
theorem daysBeforeYear_succ (y : ℤ) :
    daysBeforeYear (y + 1) =
      daysBeforeYear y + (if y % 4 = 0 ∧ (y % 100 ≠ 0 ∨ y % 400 = 0) then 366 else 365) := by
  unfold daysBeforeYear
  split_ifs with h <;> omega

/-- The date computed for a day number is a date of the calendar, and it is
the date of that day: month 1..12, day within the month, and the days up to
it counted from 1 January 1970 give the day number back. -/
theorem civilFromDays_spec (days : ℤ) :
    1 ≤ (civilFromDays days).2.1 ∧ (civilFromDays days).2.1 ≤ 12 ∧
    1 ≤ (civilFromDays days).2.2 ∧
    (civilFromDays days).2.2 ≤ daysInMonth (civilFromDays days).1 (civilFromDays days).2.1 ∧
    daysBeforeYear (civilFromDays days).1 +
        daysBeforeMonth (civilFromDays days).1 (civilFromDays days).2.1 +
        (((civilFromDays days).2.2 : ℤ) - 1) = days := by
  have hdoe : ((days + 719468) % 146097).toNat < 146097 := by omega
  have hz : days = (days + 719468) / 146097 * 146097 +
      (((days + 719468) % 146097).toNat : ℤ) - 719468 := by omega
  unfold civilFromDays
  simp only []
  generalize ((days + 719468) % 146097).toNat = doe at *
  generalize (days + 719468) / 146097 = era at *
  obtain ⟨c, q, k, doy, hc, hq, hk, hyoe, hM, hsplit, hdoy, hleap⟩ := yearOfEra_decomp doe hdoe
  rw [hyoe, hM]
  clear hyoe hM
  have hdoy0 : doe - (36524 * c + 1461 * q + 365 * k) = doy := by omega
  rw [hdoy0]
  have hY1 := daysBeforeYear_decomp era c q k hc hq hk
  have hY0 := daysBeforeYear_succ (400 * era + (100 * c + 4 * q + k : ℕ))
  have hcomm : ((100 * c + 4 * q + k : ℕ) : ℤ) + era * 400 =
      400 * era + (100 * c + 4 * q + k : ℕ) := by ring
  rw [hcomm]
  have hleapNext : doy = 365 →
      ((400 * era + ((100 * c + 4 * q + k : ℕ) : ℤ) + 1) % 4 = 0 ∧
        ((400 * era + ((100 * c + 4 * q + k : ℕ) : ℤ) + 1) % 100 ≠ 0 ∨
          (400 * era + ((100 * c + 4 * q + k : ℕ) : ℤ) + 1) % 400 = 0)) := by
    intro h365
    obtain ⟨hk3, hq24⟩ := hleap h365
    subst hk3
    have e : 400 * era + ((100 * c + 4 * q + 3 : ℕ) : ℤ) + 1 =
        (4 * (q : ℤ) + 4) + 100 * (4 * era + c) := by
      push_cast
      ring
    have e4 : 400 * era + ((100 * c + 4 * q + 3 : ℕ) : ℤ) + 1 =
        0 + 4 * (100 * era + 25 * c + q + 1) := by
      push_cast
      ring
    refine ⟨by rw [e4, Int.add_mul_emod_self_left]; rfl, ?_⟩
    rcases hq24 with hq24 | hc3
    · left
      rw [e, Int.add_mul_emod_self_left]
      omega
    · by_cases hq24 : q = 24
      · right
        subst hq24
        subst hc3
        have e400 : 400 * era + ((100 * 3 + 4 * 24 + 3 : ℕ) : ℤ) + 1 = 0 + 400 * (era + 1) := by
          push_cast
          ring
        rw [e400, Int.add_mul_emod_self_left]
        rfl
      · left
        rw [e, Int.add_mul_emod_self_left]
        omega
  generalize 400 * era + ((100 * c + 4 * q + k : ℕ) : ℤ) = Y at *
  obtain ⟨mp, hmp⟩ : ∃ mp, mp = (5 * doy + 2) / 153 := ⟨_, rfl⟩
  rw [← hmp]
  have hmp11 : mp ≤ 11 := by omega
  interval_cases mp
  all_goals
    simp [daysInMonth, daysBeforeMonth, List.range_succ]
    simp at hY0 hleapNext
    split_ifs at hY0 ⊢ <;> omega

/-- The numeral of a number below ten is its digit. -/
theorem decimalNat_of_lt (n : ℕ) (h : n < 10) : decimalNat n = [Nat.digitChar n] := by
  unfold decimalNat
  by_cases h0 : n = 0
  · subst h0
    rfl
  · rw [if_neg h0, Nat.digits_of_lt 10 n h0 h]
    rfl

/-- The numeral of a number from ten on: that of its tenth, then its last
digit. -/
theorem decimalNat_of_ge (n : ℕ) (h : 10 ≤ n) :
    decimalNat n = decimalNat (n / 10) ++ [Nat.digitChar (n % 10)] := by
  unfold decimalNat
  have h0 : n ≠ 0 := by omega
  have h1 : n / 10 ≠ 0 := by omega
  rw [if_neg h0, if_neg h1, Nat.digits_def' (by norm_num) (by omega)]
  simp

/-- The digit loop of `Nat.repr` with enough fuel produces the decimal
numeral. -/
theorem toDigitsCore_eq (fuel : ℕ) : ∀ (n : ℕ) (ds : List Char), n < fuel →
    Nat.toDigitsCore 10 fuel n ds = decimalNat n ++ ds := by
  induction fuel with
  | zero => intro n ds h; omega
  | succ fuel ih =>
    intro n ds h
    rw [Nat.toDigitsCore]
    by_cases h10 : n / 10 = 0
    · rw [if_pos h10]
      have hlt : n < 10 := by omega
      rw [decimalNat_of_lt n hlt, Nat.mod_eq_of_lt hlt]
      rfl
    · rw [if_neg h10, ih (n / 10) _ (by omega), decimalNat_of_ge n (by omega)]
      simp

/-- The text `Nat.repr n` is the decimal numeral of `n`. -/
theorem repr_eq_decimalNat (n : ℕ) : Nat.repr n = ⟨decimalNat n⟩ := by
  unfold Nat.repr Nat.toDigits
  rw [toDigitsCore_eq (n + 1) n [] (by omega)]
  simp [List.asString]

/-- The text `fmt.Sprint` gives for an `int` is its decimal numeral. -/
theorem SprintInt_data (z : ℤ) : (SprintInt z).data = decimalInt z := by
  unfold SprintInt decimalInt
  split_ifs <;> simp [repr_eq_decimalNat]

/-- A number below 100 padded to two places: its two digits. -/
theorem padInt_two (n : ℕ) (h : n < 100) :
    (padInt n 2).data = [Nat.digitChar (n / 10), Nat.digitChar (n % 10)] := by
  unfold padInt
  simp only [repr_eq_decimalNat, String.data_append, String.length]
  by_cases h10 : n < 10
  · rw [decimalNat_of_lt n h10]
    have : n / 10 = 0 := by omega
    rw [this, Nat.mod_eq_of_lt h10]
    rfl
  · rw [decimalNat_of_ge n (by omega), decimalNat_of_lt (n / 10) (by omega)]
    rfl

/-- A number below 10000 padded to four places: its four digits. -/
theorem padInt_four (n : ℕ) (h : n < 10000) :
    (padInt n 4).data = [Nat.digitChar (n / 1000), Nat.digitChar (n / 100 % 10),
      Nat.digitChar (n / 10 % 10), Nat.digitChar (n % 10)] := by
  unfold padInt
  simp only [repr_eq_decimalNat, String.data_append, String.length]
  by_cases h10 : n < 10
  · rw [decimalNat_of_lt n h10]
    have e1 : n / 1000 = 0 := by omega
    have e2 : n / 100 % 10 = 0 := by omega
    have e3 : n / 10 % 10 = 0 := by omega
    rw [e1, e2, e3, Nat.mod_eq_of_lt h10]
    rfl
  · by_cases h100 : n < 100
    · rw [decimalNat_of_ge n (by omega), decimalNat_of_lt (n / 10) (by omega)]
      have e1 : n / 1000 = 0 := by omega
      have e2 : n / 100 % 10 = 0 := by omega
      have e3 : n / 10 % 10 = n / 10 := by omega
      rw [e1, e2, e3]
      rfl
    · by_cases h1000 : n < 1000
      · rw [decimalNat_of_ge n (by omega), decimalNat_of_ge (n / 10) (by omega),
          decimalNat_of_lt (n / 10 / 10) (by omega)]
        have e1 : n / 1000 = 0 := by omega
        have e2 : n / 100 % 10 = n / 10 / 10 := by omega
        rw [e1, e2]
        rfl
      · rw [decimalNat_of_ge n (by omega), decimalNat_of_ge (n / 10) (by omega),
          decimalNat_of_ge (n / 10 / 10) (by omega),
          decimalNat_of_lt (n / 10 / 10 / 10) (by omega)]
        have e1 : n / 10 / 10 / 10 = n / 1000 := by omega
        have e2 : n / 10 / 10 % 10 = n / 100 % 10 := by omega
        rw [e1, e2]
        rfl

/-- A later year begins on a later day. -/
theorem daysBeforeYear_mono (a b : ℤ) (h : a ≤ b) : daysBeforeYear a ≤ daysBeforeYear b := by
  unfold daysBeforeYear
  omega

/-- The day of the year of a valid date is within the length of the year. -/
theorem dayOfYear_le (y : ℤ) (m d : ℕ) (hm1 : 1 ≤ m) (hm : m ≤ 12) (hd : d ≤ daysInMonth y m) :
    daysBeforeMonth y m + d ≤ if y % 4 = 0 ∧ (y % 100 ≠ 0 ∨ y % 400 = 0) then 366 else 365 := by
  interval_cases m
  all_goals
    simp [daysInMonth, daysBeforeMonth, List.range_succ] at hd ⊢
    split_ifs at hd ⊢ <;> omega

/-- A month has at most 31 days. -/
theorem daysInMonth_le (y : ℤ) (m : ℕ) : daysInMonth y m ≤ 31 := by
  unfold daysInMonth
  split_ifs <;> omega

/-- The text of the layout `2006-01-02 15:04:05`: the fields of the UTC civil
time of the instant, the month, day, hour, minute and second on two digits
each, and the year on four digits when it lies in 0..9999, which it does
exactly for the instants from -62167219200 to 253402300799. -/
theorem formatUTC_spec (sec : ℤ) :
    ∃ (Y : ℤ) (M D h mi s : ℕ) (year : List Char),
      1 ≤ M ∧ M ≤ 12 ∧ 1 ≤ D ∧ D ≤ daysInMonth Y M ∧ h < 24 ∧ mi < 60 ∧ s < 60 ∧
      unixSeconds Y M D h mi s = sec ∧
      (formatUTC sec).data = year ++
        ['-', Nat.digitChar (M / 10), Nat.digitChar (M % 10),
         '-', Nat.digitChar (D / 10), Nat.digitChar (D % 10),
         ' ', Nat.digitChar (h / 10), Nat.digitChar (h % 10),
         ':', Nat.digitChar (mi / 10), Nat.digitChar (mi % 10),
         ':', Nat.digitChar (s / 10), Nat.digitChar (s % 10)] ∧
      ((0 ≤ Y ∧ Y ≤ 9999) ↔ (-62167219200 ≤ sec ∧ sec ≤ 253402300799)) ∧
      (0 ≤ Y → Y ≤ 9999 →
        year = [Nat.digitChar (Y.toNat / 1000), Nat.digitChar (Y.toNat / 100 % 10),
          Nat.digitChar (Y.toNat / 10 % 10), Nat.digitChar (Y.toNat % 10)]) := by
  obtain ⟨hM1, hM12, hD1, hDm, hday⟩ := civilFromDays_spec (sec / 86400)
  have hfmt : formatUTC sec =
      (if (civilFromDays (sec / 86400)).1 < 0 then "-" else "") ++
        padInt (civilFromDays (sec / 86400)).1.natAbs 4 ++ "-" ++
        padInt (civilFromDays (sec / 86400)).2.1 2 ++ "-" ++
        padInt (civilFromDays (sec / 86400)).2.2 2 ++ " " ++
        padInt ((sec % 86400).toNat / 3600) 2 ++ ":" ++
        padInt ((sec % 86400).toNat % 3600 / 60) 2 ++ ":" ++
        padInt ((sec % 86400).toNat % 60) 2 := rfl
  generalize civilFromDays (sec / 86400) = ymd at *
  obtain ⟨Y, M, D⟩ := ymd
  simp only [] at hM1 hM12 hD1 hDm hday hfmt
  have hrem : (sec % 86400).toNat < 86400 := by omega
  have hD31 := daysInMonth_le Y M
  have hdoy := dayOfYear_le Y M D hM1 hM12 hDm
  refine ⟨Y, M, D, (sec % 86400).toNat / 3600, (sec % 86400).toNat % 3600 / 60,
    (sec % 86400).toNat % 60,
    ((if Y < 0 then "-" else "") ++ padInt Y.natAbs 4).data,
    hM1, hM12, hD1, hDm, by omega, by omega, by omega, ?_, ?_, ?_, ?_⟩
  · unfold unixSeconds
    rw [hday]
    omega
  · rw [hfmt]
    simp only [String.data_append, padInt_two M (by omega), padInt_two D (by omega),
      padInt_two ((sec % 86400).toNat / 3600) (by omega),
      padInt_two ((sec % 86400).toNat % 3600 / 60) (by omega),
      padInt_two ((sec % 86400).toNat % 60) (by omega)]
    simp
  · have hs := daysBeforeYear_succ Y
    have hlo : daysBeforeYear Y ≤ sec / 86400 := by omega
    have hhi : sec / 86400 < daysBeforeYear (Y + 1) := by
      rw [hs]
      split_ifs at hdoy ⊢ <;> omega
    have e0 : daysBeforeYear 0 = -719528 := by norm_num [daysBeforeYear]
    have e1 : daysBeforeYear 10000 = 2932897 := by norm_num [daysBeforeYear]
    constructor
    · rintro ⟨h0, h1⟩
      have m0 := daysBeforeYear_mono 0 Y h0
      have m1 := daysBeforeYear_mono (Y + 1) 10000 (by omega)
      constructor <;> omega
    · rintro ⟨h0, h1⟩
      constructor
      · by_contra hc
        have m0 := daysBeforeYear_mono (Y + 1) 0 (by omega)
        omega
      · by_contra hc
        have m1 := daysBeforeYear_mono 10000 Y (by omega)
        omega
  · intro h0 h1
    rw [if_neg (by omega)]
    have hn : Y.natAbs = Y.toNat := by omega
    rw [hn]
    simp only [String.data_append]
    rw [padInt_four Y.toNat (by omega)]
    rfl

/-- C15 (as amended): for a packet whose source identifier is a key of the
mapping, the record written has exactly eleven fields, in this order: the
source identifier, the mapped SSId, the mapped Crypto label, the mapped
first-seen time in the layout `2006-01-02 15:04:05` in UTC, the channel of
the packet's frequency, the signal, the latitude, the longitude, the
altitude, `0` and `WIFI`; the records written before are kept as they were.
The time field is the year followed by `-MM-DD HH:MM:SS`, two digits each,
of the civil UTC time whose Unix time is the first-seen value; the year has
four digits, so that the field is the 19 characters `YYYY-MM-DD HH:MM:SS`,
when the first-seen value lies from -62167219200 to 253402300799, which are
the instants of the years 0 to 9999.  The channel and the signal are decimal
numerals, and so is a latitude, longitude or altitude that is a whole number
below `10^6` in magnitude. -/
theorem packets_record_fields (g : ℚ → String)
    (dq : Except Error (List (Except Error DeviceRow))) (m : DeviceMap) (w : CsvWriter)
    (row : PacketRow) (dev : DeviceInfo) (h : m row.sourceMac = some dev) :
    packets g ⟨dq, .ok [.ok row]⟩ m w =
      (w ++ [[row.sourceMac, dev.SSId, dev.Crypto, formatUTC dev.FirstSeen,
        SprintInt (frequencyToChannel row.frequency), SprintInt row.signal,
        SprintFloat g row.lat, SprintFloat g row.lon, SprintFloat g row.alt,
        "0", "WIFI"]], none) ∧
    (packets.record g row dev).length = 11 ∧
    (∃ (Y : ℤ) (M D h mi s : ℕ) (year : List Char),
      1 ≤ M ∧ M ≤ 12 ∧ 1 ≤ D ∧ D ≤ daysInMonth Y M ∧ h < 24 ∧ mi < 60 ∧ s < 60 ∧
      unixSeconds Y M D h mi s = dev.FirstSeen ∧
      (formatUTC dev.FirstSeen).data = year ++
        ['-', Nat.digitChar (M / 10), Nat.digitChar (M % 10),
         '-', Nat.digitChar (D / 10), Nat.digitChar (D % 10),
         ' ', Nat.digitChar (h / 10), Nat.digitChar (h % 10),
         ':', Nat.digitChar (mi / 10), Nat.digitChar (mi % 10),
         ':', Nat.digitChar (s / 10), Nat.digitChar (s % 10)] ∧
      ((0 ≤ Y ∧ Y ≤ 9999) ↔
        (-62167219200 ≤ dev.FirstSeen ∧ dev.FirstSeen ≤ 253402300799)) ∧
      (0 ≤ Y → Y ≤ 9999 →
        year = [Nat.digitChar (Y.toNat / 1000), Nat.digitChar (Y.toNat / 100 % 10),
          Nat.digitChar (Y.toNat / 10 % 10), Nat.digitChar (Y.toNat % 10)])) ∧
    (SprintInt (frequencyToChannel row.frequency)).data =
      decimalInt (frequencyToChannel row.frequency) ∧
    (SprintInt row.signal).data = decimalInt row.signal ∧
    (∀ v : ℚ, v.den = 1 → v.num.natAbs < 10 ^ 6 →
      (SprintFloat g v).data = decimalInt v.num) := by
  refine ⟨?_, rfl, formatUTC_spec dev.FirstSeen, SprintInt_data _, SprintInt_data _,
    fun v hden hnum => ?_⟩
  · simp only [packets]
    rw [packets.loop_cons_some g m w row dev [] h]
    rfl
  · unfold SprintFloat
    rw [if_pos ⟨hden, hnum⟩]
    exact SprintInt_data _

/-- Witness for C15 as amended: the packet and the `DeviceInfo` of the
end-to-end example give the record
`AA:BB:CC:DD:EE:FF,Home,[WPA2-PSK-CCMP][ESS],2023-11-14 22:13:20,1,-50,1,2,10,0,WIFI`,
and 2023-11-14 22:13:20 is the civil UTC time of the Unix time 1700000000. -/
theorem packets_record_fields_witness :
    packets (fun _ => "") (homeDB "268436160")
        (DeviceMap.empty.insert "AA:BB:CC:DD:EE:FF" ⟨"Home", 1700000000, "[WPA2-PSK-CCMP][ESS]"⟩)
        [] =
      ([["AA:BB:CC:DD:EE:FF", "Home", "[WPA2-PSK-CCMP][ESS]", "2023-11-14 22:13:20", "1",
        "-50", "1", "2", "10", "0", "WIFI"]], none) ∧
    unixSeconds 2023 11 14 22 13 20 = 1700000000 ∧
    decimalInt (-50) = ['-', '5', '0'] := by
  have h := (packets_record_fields (fun _ => "") (homeDB "268436160").deviceQuery
    (DeviceMap.empty.insert "AA:BB:CC:DD:EE:FF" ⟨"Home", 1700000000, "[WPA2-PSK-CCMP][ESS]"⟩)
    [] ⟨1700000000, "AA:BB:CC:DD:EE:FF", "IEEE802.11", 1, 2, -50, 2412000, 10⟩
    ⟨"Home", 1700000000, "[WPA2-PSK-CCMP][ESS]"⟩ (DeviceMap.insert_same _ _ _)).1
  have hr := record_home (fun _ => "") "[WPA2-PSK-CCMP][ESS]"
  refine ⟨h.trans (congrArg (fun r => ([r], none)) hr), by decide, ?_⟩
  norm_num [decimalInt, decimalNat]
  decide

/-- C15 (as stated) fails: with the first-seen value 253402300800, the first
second of the year 10000, the time field is `10000-01-01 00:00:00`, which
has 20 characters and a year of five digits, not the layout
`YYYY-MM-DD HH:MM:SS`. -/
theorem packets_record_year_10000 :
    packets (fun _ => "") (homeDB "0")
        (DeviceMap.empty.insert "AA:BB:CC:DD:EE:FF" ⟨"Home", 253402300800, "[ESS]"⟩) [] =
      ([["AA:BB:CC:DD:EE:FF", "Home", "[ESS]", "10000-01-01 00:00:00", "1", "-50", "1",
        "2", "10", "0", "WIFI"]], none) ∧
    "10000-01-01 00:00:00".length = 20 ∧
    "YYYY-MM-DD HH:MM:SS".length = 19 := by
  have hm : (DeviceMap.empty.insert "AA:BB:CC:DD:EE:FF" ⟨"Home", 253402300800, "[ESS]"⟩)
      "AA:BB:CC:DD:EE:FF" = some ⟨"Home", 253402300800, "[ESS]"⟩ :=
    DeviceMap.insert_same _ _ _
  have h1 : SprintFloat (fun _ => "") 1 = "1" := by
    have h := SprintFloat_intCast (fun _ => "") 1 (by decide)
    rw [Int.cast_one] at h
    rw [h]
    decide
  have h2 : SprintFloat (fun _ => "") 2 = "2" := by
    have h := SprintFloat_intCast (fun _ => "") 2 (by decide)
    rw [Int.cast_ofNat] at h
    rw [h]
    decide
  have h10 : SprintFloat (fun _ => "") 10 = "10" := by
    have h := SprintFloat_intCast (fun _ => "") 10 (by decide)
    rw [Int.cast_ofNat] at h
    rw [h]
    decide
  have ht : formatUTC 253402300800 = "10000-01-01 00:00:00" := by decide
  have hc : SprintInt 1 = "1" := by decide
  have hs : SprintInt (-50) = "-50" := by decide
  refine ⟨?_, by decide, by decide⟩
  simp only [packets, homeDB, packets.loop, hm, packets.record, frequencyToChannel_2412000,
    h1, h2, h10, ht, hc, hs, List.nil_append]

/-- The packet loop on rows that all scan: the records of the rows whose
source is a key are added, in order, and no error results. -/
theorem packets.loop_ok (g : ℚ → String) (m : DeviceMap) (rows : List PacketRow)
    (w : CsvWriter) :
    packets.loop g m w (rows.map .ok) =
      (w ++ rows.filterMap (fun r => (m r.sourceMac).map (packets.record g r)), none) := by
  induction rows generalizing w with
  | nil => simp [packets.loop]
  | cons r rest ih =>
    rw [List.map_cons]
    cases hm : m r.sourceMac with
    | none =>
      rw [packets.loop_cons_none g m w r _ hm, ih]
      simp [List.filterMap_cons, hm]
    | some dev =>
      rw [packets.loop_cons_some g m w r dev _ hm, ih]
      simp [List.filterMap_cons, hm]

/-- C16: when every packet row scans, `packets` returns no error and writes,
in the input order, one record for each row whose source identifier is a key
of the mapping and none for the others, so the number of records written
equals the number of rows with a resolvable device. -/
theorem packets_join (g : ℚ → String)
    (dq : Except Error (List (Except Error DeviceRow))) (m : DeviceMap) (w : CsvWriter)
    (rows : List PacketRow) :
    packets g ⟨dq, .ok (rows.map .ok)⟩ m w =
      (w ++ rows.filterMap (fun r => (m r.sourceMac).map (packets.record g r)), none) ∧
    (rows.filterMap (fun r => (m r.sourceMac).map (packets.record g r))).length =
      (rows.filter (fun r => (m r.sourceMac).isSome)).length := by
  refine ⟨?_, ?_⟩
  · simp only [packets]
    exact packets.loop_ok g m rows w
  · induction rows with
    | nil => rfl
    | cons r rest ih =>
      cases hm : m r.sourceMac with
      | none => simp [List.filterMap_cons, List.filter_cons, hm, ih]
      | some dev => simp [List.filterMap_cons, List.filter_cons, hm, ih]

/-! ## Failures -/

/-- One turn of the device loop on a row whose blob fails to parse. -/
theorem accessPoints.loop_cons_error (m : DeviceMap) (row : DeviceRow) (e : Error)
    (rest : List (Except Error DeviceRow)) (h : Unmarshal row.device = .error e) :
    accessPoints.loop m (.ok row :: rest) = (DeviceMap.empty, some e) := by
  rw [accessPoints.loop, h]

/-- The device loop returns an error together with the `nil` map only. -/
theorem accessPoints.loop_error_nil (rows : List (Except Error DeviceRow)) (m : DeviceMap)
    (e : Error) (h : (accessPoints.loop m rows).2 = some e) :
    accessPoints.loop m rows = (DeviceMap.empty, some e) := by
  induction rows generalizing m with
  | nil => simp [accessPoints.loop] at h
  | cons r rest ih =>
    cases r with
    | error err =>
      simp only [accessPoints.loop] at h ⊢
      rw [Option.some.inj h]
    | ok row =>
      cases hu : Unmarshal row.device with
      | error err =>
        rw [accessPoints.loop_cons_error m row err rest hu] at h ⊢
        rw [Option.some.inj h]
      | ok dev =>
        rw [accessPoints.loop_cons_ok m row dev rest hu] at h ⊢
        exact ih _ h

/-- A row whose blob fails to parse makes the device loop end in an error. -/
theorem accessPoints.loop_fails (rows : List (Except Error DeviceRow)) (r : DeviceRow)
    (e : Error) (hmem : .ok r ∈ rows) (hr : Unmarshal r.device = .error e) (m : DeviceMap) :
    ∃ err, (accessPoints.loop m rows).2 = some err := by
  induction rows generalizing m with
  | nil => exact absurd hmem (List.not_mem_nil _)
  | cons x rest ih =>
    cases x with
    | error err => exact ⟨err, by simp only [accessPoints.loop]⟩
    | ok row =>
      cases hu : Unmarshal row.device with
      | error err => exact ⟨err, by rw [accessPoints.loop_cons_error m row err rest hu]⟩
      | ok dev =>
        rw [accessPoints.loop_cons_ok m row dev rest hu]
        rcases List.mem_cons.mp hmem with heq | hrest
        · have : r = row := Except.ok.inj heq
          rw [this, hu] at hr
          cases hr
        · exact ih hrest _

/-- The device loop stops at the first row whose blob fails to parse. -/
theorem accessPoints.loop_first_failure (pre : List DeviceRow) (r : DeviceRow) (e : Error)
    (post : List (Except Error DeviceRow))
    (hpre : ∀ x ∈ pre, ∃ d, Unmarshal x.device = .ok d)
    (hr : Unmarshal r.device = .error e) (m : DeviceMap) :
    accessPoints.loop m (pre.map .ok ++ .ok r :: post) = (DeviceMap.empty, some e) := by
  induction pre generalizing m with
  | nil => exact accessPoints.loop_cons_error m r e post hr
  | cons p pre ih =>
    obtain ⟨d, hd⟩ := hpre p (List.mem_cons_self _ _)
    rw [List.map_cons, List.cons_append, accessPoints.loop_cons_ok m p d _ hd]
    exact ih (fun x hx => hpre x (List.mem_cons_of_mem _ hx)) _

/-- The device loop on rows of which one fails to parse: the rows split into
rows that scan and parse, the first row that does not, and the rest, and the
loop returns the error of that first row and the `nil` map. -/
theorem accessPoints.loop_stops (rows : List (Except Error DeviceRow)) (r : DeviceRow)
    (e : Error) (hmem : .ok r ∈ rows) (hr : Unmarshal r.device = .error e) (m : DeviceMap) :
    ∃ (pre : List DeviceRow) (x : Except Error DeviceRow)
      (post : List (Except Error DeviceRow)) (err : Error),
      rows = pre.map .ok ++ x :: post ∧
      (∀ p ∈ pre, ∃ d, Unmarshal p.device = .ok d) ∧
      (x = .error err ∨ ∃ row, x = .ok row ∧ Unmarshal row.device = .error err) ∧
      accessPoints.loop m rows = (DeviceMap.empty, some err) := by
  induction rows generalizing m with
  | nil => exact absurd hmem (List.not_mem_nil _)
  | cons x rest ih =>
    cases x with
    | error err =>
      exact ⟨[], .error err, rest, err, rfl, fun p hp => absurd hp (List.not_mem_nil _),
        Or.inl rfl, by simp only [accessPoints.loop]⟩
    | ok row =>
      cases hu : Unmarshal row.device with
      | error err =>
        exact ⟨[], .ok row, rest, err, rfl, fun p hp => absurd hp (List.not_mem_nil _),
          Or.inr ⟨row, rfl, hu⟩, accessPoints.loop_cons_error m row err rest hu⟩
      | ok dev =>
        have hrest : .ok r ∈ rest := by
          rcases List.mem_cons.mp hmem with heq | hrest
          · have : r = row := Except.ok.inj heq
            rw [this, hu] at hr
            cases hr
          · exact hrest
        obtain ⟨pre, y, post, err, hsplit, hpre, hy, hloop⟩ := ih hrest
          (m.insert row.devMac (accessPoints.info row.firstSeen dev))
        refine ⟨row :: pre, y, post, err, ?_, ?_, hy, ?_⟩
        · rw [hsplit]
          rfl
        · intro p hp
          rcases List.mem_cons.mp hp with heq | hp
          · rw [heq]
            exact ⟨dev, hu⟩
          · exact hpre p hp
        · rw [accessPoints.loop_cons_ok m row dev rest hu]
          exact hloop

/-- C17 (as amended): if the blob of a device row fails to parse,
`accessPoints` returns an error and the `nil` map, whatever the other rows
are: not the entries of the rows before it, and not a map that passes over
the bad row.  The error returned is that of the first row that fails to scan
or to parse; it is the error of this row whenever the rows before it scan and
parse. -/
theorem accessPoints_parse_failure (rows : List (Except Error DeviceRow))
    (pq : Except Error (List (Except Error PacketRow))) (r : DeviceRow) (e : Error)
    (hmem : .ok r ∈ rows) (hr : Unmarshal r.device = .error e) :
    (∃ (pre : List DeviceRow) (x : Except Error DeviceRow)
      (post : List (Except Error DeviceRow)) (err : Error),
      rows = pre.map .ok ++ x :: post ∧
      (∀ p ∈ pre, ∃ d, Unmarshal p.device = .ok d) ∧
      (x = .error err ∨ ∃ row, x = .ok row ∧ Unmarshal row.device = .error err) ∧
      accessPoints ⟨.ok rows, pq⟩ = (DeviceMap.empty, some err)) ∧
    (∀ (pre : List DeviceRow) (post : List (Except Error DeviceRow)),
      rows = pre.map .ok ++ .ok r :: post →
      (∀ x ∈ pre, ∃ d, Unmarshal x.device = .ok d) →
      accessPoints ⟨.ok rows, pq⟩ = (DeviceMap.empty, some e)) := by
  refine ⟨accessPoints.loop_stops rows r e hmem hr DeviceMap.empty,
    fun pre post hsplit hpre => ?_⟩
  subst hsplit
  exact accessPoints.loop_first_failure pre r e post hpre hr _

/-- Witness for C17 as amended: the rows of `dupRows` with `brokenRow` put
after the first of them; the entry of the first row is not returned. -/
theorem accessPoints_parse_failure_witness :
    accessPoints ⟨.ok (.ok (dupRows.get ⟨0, by decide⟩) :: .ok brokenRow ::
        (dupRows.tail.map .ok)), .ok []⟩ =
      (DeviceMap.empty, some (.malformed "unexpected end of JSON input")) :=
  (accessPoints_parse_failure _ (.ok []) brokenRow _ (by simp) rfl).2
    [dupRows.get ⟨0, by decide⟩] (dupRows.tail.map .ok) rfl
    (fun x hx => by
      rw [List.mem_singleton] at hx
      subst hx
      exact ⟨_, rfl⟩)

/-- C17 (as stated) fails: of the two rows `brokenRow` and `mistypedRow` the
blob of the second fails to parse, with a type error, and `accessPoints`
returns not that error but the syntax error of the first. -/
theorem accessPoints_two_failures :
    Unmarshal mistypedRow.device = .error (.mismatch "array" "struct") ∧
    accessPoints ⟨.ok [.ok brokenRow, .ok mistypedRow], .ok []⟩ =
      (DeviceMap.empty, some (.malformed "unexpected end of JSON input")) ∧
    (accessPoints ⟨.ok [.ok brokenRow, .ok mistypedRow], .ok []⟩).2 ≠
      some (.mismatch "array" "struct") := by
  refine ⟨rfl, rfl, ?_⟩
  decide

/-- C18 (the code at the failing inputs): whatever `packets` returns, the run
ends fatally exactly when `accessPoints` returned an error.  With a failing
packet query, and with a packet row that fails to scan, `packets` returns an
error and `main` returns normally. -/
theorem main_drops_packets_error (g : ℚ → String) :
    (∀ db, (Program.main g (.ok db)).fatal = (accessPoints db).2) ∧
    (packets g packetQueryFailsDB (accessPoints packetQueryFailsDB).1 []).2 =
      some (.sql "no such table: packets") ∧
    (Program.main g (.ok packetQueryFailsDB)).fatal = none ∧
    (packets g packetScanFailsDB (accessPoints packetScanFailsDB).1 []).2 =
      some (.sql "converting NULL to float64 is unsupported") ∧
    (Program.main g (.ok packetScanFailsDB)).fatal = none := by
  have hmain : ∀ db, (Program.main g (.ok db)).fatal = (accessPoints db).2 := by
    intro db
    simp only [Program.main]
    cases h : (accessPoints db).2 <;> rfl
  have hA : (accessPoints packetScanFailsDB).1 "AA:BB:CC:DD:EE:FF" =
      some ⟨"Home", 1700000000, "[WPA2-PSK-CCMP][ESS]"⟩ := by rfl
  refine ⟨hmain, rfl, ?_, ?_, ?_⟩
  · rw [hmain]
    rfl
  · simp only [packets, packetScanFailsDB]
    rw [packets.loop_cons_some g _ _ _ _ _ hA]
    rfl
  · rw [hmain]
    rfl

/-! ## Bits the label does not read, and tokens that exclude each other -/

/-- The label is determined by the ten masked values the method tests. -/
theorem cryptString_congr (c d : Crypt)
    (hwps : c &&& CryptWPS = d &&& CryptWPS)
    (hmask : c &&& CryptProtectMask = d &&& CryptProtectMask)
    (hwpa : c &&& CryptWPA = d &&& CryptWPA)
    (htkip : c &&& CryptTKIP = d &&& CryptTKIP)
    (hccm : c &&& CryptAES_CCM = d &&& CryptAES_CCM)
    (hpsk : c &&& CryptPSK = d &&& CryptPSK)
    (heap : c &&& CryptEAP = d &&& CryptEAP)
    (howe : c &&& CryptWPAOWE = d &&& CryptWPAOWE)
    (hv1 : c &&& CryptVersionWPA = d &&& CryptVersionWPA)
    (hv2 : c &&& CryptVersionWPA2 = d &&& CryptVersionWPA2) :
    Crypt.String c = Crypt.String d := by
  simp only [Crypt.String, Crypt.builder, Crypt.version, Crypt.authVersion, hwps, hmask,
    hwpa, htkip, hccm, hpsk, heap, howe, hv1, hv2]

/-- Flipping bits of `c` that a mask `y` does not hold leaves `c &&& y`. -/
theorem xor_land_of_disjoint (c x y : Nat) (h : x &&& y = 0) : (c ^^^ x) &&& y = c &&& y := by
  rw [Nat.and_xor_distrib_right, h, Nat.xor_zero]

/-- Setting bits of `c` that a mask `y` does not hold leaves `c &&& y`. -/
theorem lor_land_of_disjoint (c x y : Nat) (h : x &&& y = 0) : (c ||| x) &&& y = c &&& y := by
  rw [Nat.and_comm, Nat.and_or_distrib_left, Nat.and_comm y x, h, Nat.or_zero, Nat.and_comm]

theorem version_mem (c : Crypt) : c.version ∈ ["CCMP+TKIP", "TKIP", "CCMP", ""] := by
  unfold Crypt.version
  split_ifs <;> simp

theorem authVersion_mem (c : Crypt) : c.authVersion ∈ ["PSK", "EAP", "OWE", ""] := by
  unfold Crypt.authVersion
  split_ifs <;> simp

theorem wpsText_mem (c : Crypt) : c.wpsText ∈ ["[WPS] ", ""] := by
  unfold Crypt.wpsText
  split_ifs <;> simp

/-- A property of every label that can carry a WPA token holds of the label
of every mask with the `CryptWPA` bit set. -/
theorem cryptString_wpa_cases (P : String → Prop)
    (hP : ∀ a ∈ ["PSK", "EAP", "OWE", ""], ∀ v ∈ ["CCMP+TKIP", "TKIP", "CCMP", ""],
      ∀ w ∈ ["[WPS] ", ""],
        P (w ++ ("[WPA-" ++ a ++ "-" ++ v ++ "] [WPA2-" ++ a ++ "-" ++ v ++ "]") ++ "[ESS]") ∧
        P (w ++ ("[WPA2-" ++ a ++ "-" ++ v ++ "]") ++ "[ESS]") ∧
        P (w ++ ("[WPA-" ++ a ++ "-" ++ v ++ "]") ++ "[ESS]"))
    (c : Crypt) (h : c &&& CryptWPA ≠ 0) : P (Crypt.String c) := by
  have hall := hP c.authVersion (authVersion_mem c) c.version (version_mem c) c.wpsText
    (wpsText_mem c)
  rw [cryptString_of_wpa c h]
  unfold Crypt.wpaTokens
  split_ifs
  · exact hall.1
  · exact hall.2.1
  · exact hall.2.2

/-- C19: the label is the same whether the WPA3 version bit or the SAE bit is
set or clear (flipping either bit, or setting it, changes nothing), and no
label contains the text `WPA3`. -/
theorem cryptString_ignores_wpa3_sae (c : Crypt) :
    Crypt.String (c ^^^ CryptVersionWPA3) = Crypt.String c ∧
    Crypt.String (c ^^^ CryptSAE) = Crypt.String c ∧
    Crypt.String (c ||| CryptVersionWPA3) = Crypt.String c ∧
    Crypt.String (c ||| CryptSAE) = Crypt.String c ∧
    ¬ "WPA3".data <:+: (Crypt.String c).data := by
  refine ⟨?_, ?_, ?_, ?_, ?_⟩
  · apply cryptString_congr <;> exact xor_land_of_disjoint _ _ _ (by decide)
  · apply cryptString_congr <;> exact xor_land_of_disjoint _ _ _ (by decide)
  · apply cryptString_congr <;> exact lor_land_of_disjoint _ _ _ (by decide)
  · apply cryptString_congr <;> exact lor_land_of_disjoint _ _ _ (by decide)
  · by_cases h : c &&& CryptWPA = 0
    · rw [cryptString_of_not_wpa c h]
      split_ifs <;> decide
    · exact cryptString_wpa_cases (fun s => ¬ "WPA3".data <:+: s.data) (by decide) c h

/-- C20: the label holds the token `[WEP]` exactly when the low sixteen bits
equal `CryptWEP`, and a token beginning `[WPA` exactly when the `CryptWPA` bit
is set; that bit lies inside the sixteen-bit mask, so the two conditions
exclude each other and no label holds both. -/
theorem cryptString_wep_wpa_exclusive (c : Crypt) :
    ("[WEP]".data <:+: (Crypt.String c).data ↔ c &&& CryptProtectMask = CryptWEP) ∧
    ("[WPA".data <:+: (Crypt.String c).data ↔ c &&& CryptWPA ≠ 0) ∧
    CryptWPA &&& CryptProtectMask = CryptWPA ∧
    ¬ (c &&& CryptProtectMask = CryptWEP ∧ c &&& CryptWPA ≠ 0) ∧
    ¬ ("[WEP]".data <:+: (Crypt.String c).data ∧ "[WPA".data <:+: (Crypt.String c).data) := by
  have hexcl : ¬ (c &&& CryptProtectMask = CryptWEP ∧ c &&& CryptWPA ≠ 0) :=
    fun hh => hh.2 (land_mask_wpa c hh.1)
  by_cases h : c &&& CryptWPA = 0
  · rw [cryptString_of_not_wpa c h]
    split_ifs with hwps hwep hwep
    · exact ⟨iff_of_true (by decide) hwep, iff_of_false (by decide) (not_not.mpr h),
        by decide, hexcl, fun hh => absurd hh.2 (by decide)⟩
    · exact ⟨iff_of_false (by decide) hwep, iff_of_false (by decide) (not_not.mpr h),
        by decide, hexcl, fun hh => absurd hh.2 (by decide)⟩
    · exact ⟨iff_of_true (by decide) hwep, iff_of_false (by decide) (not_not.mpr h),
        by decide, hexcl, fun hh => absurd hh.2 (by decide)⟩
    · exact ⟨iff_of_false (by decide) hwep, iff_of_false (by decide) (not_not.mpr h),
        by decide, hexcl, fun hh => absurd hh.2 (by decide)⟩
  · have hwep : ¬ c &&& CryptProtectMask = CryptWEP := fun hw => h (land_mask_wpa c hw)
    have hlab := cryptString_wpa_cases
      (fun s => ¬ "[WEP]".data <:+: s.data ∧ "[WPA".data <:+: s.data) (by decide) c h
    exact ⟨iff_of_false hlab.1 hwep, iff_of_true hlab.2 h, by decide, hexcl,
      fun hh => hlab.1 hh.1⟩
